import Mathlib

/-!
# Shared audio ring buffer of the live-transcription plugins

A shallow embedding of `modules/whisper_shared.c` (the ring kept in five global
variables) and of the struct-based copies of the same operations in
`modules/audio_filter/livetranslate_whisper_audio.c` and
`modules/spu/livetranslate_whisper.c`.

Conventions of the embedding.

* The samples are C `float`s that the ring only copies, never computes with, so
  the sample type is a parameter `α`; its `0` is the value `memset` leaves in a
  slot.
* The macro `WHISPER_BUFFER_SIZE` is the parameter `cap` of every operation;
  the value the source gives it is `WHISPER_BUFFER_SIZE` below.
* `size_t` values are natural numbers.  With both cursors below `cap` every
  intermediate value of the source stays below `2 * cap`, so for the source's
  capacity no `size_t` operation wraps.
* A pointer that may be `NULL` is an `Option`; the storage is the list of its
  `cap` slots.  An access outside the storage (undefined in C) writes nothing
  and reads `0`; the theorems that depend on a slot carry the bounds that keep
  every access inside.
* `whisper_shared_write (samples, count)` receives the `count` floats it reads
  as the list `samples`.  `whisper_shared_read (samples, count)` receives the
  caller's buffer and returns it with the copied slots replaced.
* The result of `malloc` is the boolean argument of `whisper_shared_init`.
-/

set_option autoImplicit false

namespace WhisperShared

/-- The macro `WHISPER_SAMPLE_RATE`. -/
def WHISPER_SAMPLE_RATE : Nat := 16000

/-- The macro `WHISPER_BUFFER_SIZE`: ten seconds of samples. -/
def WHISPER_BUFFER_SIZE : Nat := WHISPER_SAMPLE_RATE * 10

/-- The five globals of `whisper_shared.c`. -/
structure Globals (α : Type) where
  g_audio_samples : Option (List α)
  g_write_pos : Nat
  g_read_pos : Nat
  g_active : Bool
  g_init_count : Int
deriving DecidableEq, Repr

/-- The static initialisers: `NULL`, `0`, `0`, `false`, `0`. -/
def Globals.initial {α : Type} : Globals α :=
  { g_audio_samples := none, g_write_pos := 0, g_read_pos := 0,
    g_active := false, g_init_count := 0 }

section operations

variable {α : Type} [Zero α]

/-- The body of `whisper_shared_init`; `malloc_ok` tells whether `malloc`
returns a block. -/
def whisper_shared_init (cap : Nat) (malloc_ok : Bool) (g : Globals α) :
    Int × Globals α :=
  let count := g.g_init_count
  let g1 := { g with g_init_count := g.g_init_count + 1 }
  if count = 0 then
    if malloc_ok then
      (0, { g1 with g_audio_samples := some (List.replicate cap 0),
                    g_write_pos := 0, g_read_pos := 0, g_active := true })
    else
      (-1, { g1 with g_audio_samples := none,
                     g_init_count := g1.g_init_count - 1 })
  else
    (0, { g1 with g_active := true })

/-- The body of `whisper_shared_cleanup`. -/
def whisper_shared_cleanup (g : Globals α) : Globals α :=
  let count := g.g_init_count
  let g1 := { g with g_init_count := g.g_init_count - 1 }
  if count = 1 then
    { g1 with g_active := false, g_audio_samples := none }
  else
    g1

/-- The loop of `whisper_shared_write`: one sample is stored at `write_pos`,
then `write_pos` becomes `(write_pos + 1) % WHISPER_BUFFER_SIZE`. -/
def writeLoop (cap : Nat) : List α → List α → Nat → List α × Nat
  | [], buf, write_pos => (buf, write_pos)
  | x :: rest, buf, write_pos =>
      writeLoop cap rest (buf.set write_pos x) ((write_pos + 1) % cap)

/-- The function `whisper_shared_write`. -/
def whisper_shared_write (cap : Nat) (g : Globals α) (samples : List α) :
    Int × Globals α :=
  match g.g_active, g.g_audio_samples with
  | true, some buf =>
      let r := writeLoop cap samples buf g.g_write_pos
      (0, { g with g_audio_samples := some r.1, g_write_pos := r.2 })
  | _, _ => (-1, g)

/-- The number `available_samples` that `whisper_shared_read` and
`whisper_shared_available` compute from the two cursors. -/
def availableSamples (cap write_pos read_pos : Nat) : Nat :=
  if write_pos ≥ read_pos then write_pos - read_pos
  else cap - read_pos + write_pos

/-- The copy loop of `whisper_shared_read`, for `i` from `0` to `count - 1`:
`samples[i] = g_audio_samples[(read_pos + i) % WHISPER_BUFFER_SIZE]`. -/
def readLoop (cap : Nat) (buf : List α) (read_pos : Nat) : Nat → List α → List α
  | 0, out => out
  | i + 1, out =>
      (readLoop cap buf read_pos i out).set i (buf.getD ((read_pos + i) % cap) 0)

/-- The function `whisper_shared_read`: return code, the caller's buffer after
the call, the globals after the call. -/
def whisper_shared_read (cap : Nat) (g : Globals α) (samples : List α) (count : Nat) :
    Int × List α × Globals α :=
  match g.g_active, g.g_audio_samples with
  | true, some buf =>
      if availableSamples cap g.g_write_pos g.g_read_pos < count then
        (-1, samples, g)
      else
        (0, readLoop cap buf g.g_read_pos count samples,
          { g with g_read_pos := (g.g_read_pos + count) % cap })
  | _, _ => (-1, samples, g)

/-- The function `whisper_shared_available`. -/
def whisper_shared_available (cap : Nat) (g : Globals α) : Nat :=
  match g.g_active, g.g_audio_samples with
  | true, some _ => availableSamples cap g.g_write_pos g.g_read_pos
  | _, _ => 0

/-- A freshly created ring: the globals after the first `whisper_shared_init`
whose allocation succeeds. -/
def freshRing (cap : Nat) : Globals α :=
  (whisper_shared_init cap true Globals.initial).2

end operations

/-! ### The struct-based copy of the ring (`whisper_shared_vlc.h`) -/

/-- The struct `whisper_shared_buffer_t`; `samples` is the block its pointer
field addresses. -/
structure whisper_shared_buffer_t (α : Type) where
  samples : List α
  write_pos : Nat
  read_pos : Nat
  active : Bool
  ref_count : Int
deriving DecidableEq, Repr

section bufferOperations

variable {α : Type} [Zero α]

/-- The function `whisper_shared_write_buffer` of
`livetranslate_whisper_audio.c`; `none` is the `NULL` buffer pointer. -/
def whisper_shared_write_buffer (cap : Nat) (buffer : Option (whisper_shared_buffer_t α))
    (samples : List α) : Int × Option (whisper_shared_buffer_t α) :=
  match buffer with
  | none => (-1, none)
  | some b =>
      if !b.active then (-1, some b)
      else
        let r := writeLoop cap samples b.samples b.write_pos
        (0, some { b with samples := r.1, write_pos := r.2 })

/-- The function `whisper_shared_read_buffer` of `livetranslate_whisper.c`. -/
def whisper_shared_read_buffer (cap : Nat) (buffer : Option (whisper_shared_buffer_t α))
    (samples : List α) (count : Nat) :
    Int × List α × Option (whisper_shared_buffer_t α) :=
  match buffer with
  | none => (-1, samples, none)
  | some b =>
      if !b.active then (-1, samples, some b)
      else if availableSamples cap b.write_pos b.read_pos < count then
        (-1, samples, some b)
      else
        (0, readLoop cap b.samples b.read_pos count samples,
          some { b with read_pos := (b.read_pos + count) % cap })

/-- The function `whisper_shared_available_buffer` of `livetranslate_whisper.c`. -/
def whisper_shared_available_buffer (cap : Nat)
    (buffer : Option (whisper_shared_buffer_t α)) : Nat :=
  match buffer with
  | none => 0
  | some b =>
      if !b.active then 0
      else availableSamples cap b.write_pos b.read_pos

end bufferOperations

/-! ### Sequences of calls -/

/-- One call of the interface of `whisper_shared.h`, with its arguments. -/
inductive Call (α : Type) where
  | init (malloc_ok : Bool)
  | cleanup
  | write (samples : List α)
  | read (out : List α) (count : Nat)
  | available
deriving DecidableEq, Repr

/-- The calls that move samples or query the ring: write, read, available. -/
def Call.isTransfer {α : Type} : Call α → Bool
  | .write _ => true
  | .read _ _ => true
  | .available => true
  | _ => false

/-- A read call hands over a buffer with room for `count` samples. -/
def Call.roomy {α : Type} : Call α → Bool
  | .read out count => decide (count ≤ out.length)
  | _ => true

section traces

variable {α : Type} [Zero α]

/-- The globals after one call; `whisper_shared_available` stores nothing. -/
def step (cap : Nat) (g : Globals α) : Call α → Globals α
  | .init malloc_ok => (whisper_shared_init cap malloc_ok g).2
  | .cleanup => whisper_shared_cleanup g
  | .write samples => (whisper_shared_write cap g samples).2
  | .read out count => (whisper_shared_read cap g out count).2.2
  | .available => g

/-- The globals after a sequence of calls. -/
def run (cap : Nat) (g : Globals α) (calls : List (Call α)) : Globals α :=
  calls.foldl (step cap) g

/-- The total number of samples handed to write calls. -/
def samplesWritten : List (Call α) → Nat
  | [] => 0
  | .write samples :: rest => samples.length + samplesWritten rest
  | _ :: rest => samplesWritten rest

/-- The total number of samples delivered by the read calls that return `0`,
when the calls run from the globals `g`. -/
def samplesRead (cap : Nat) : Globals α → List (Call α) → Nat
  | _, [] => 0
  | g, .read out count :: rest =>
      (if (whisper_shared_read cap g out count).1 = 0 then count else 0)
        + samplesRead cap (step cap g (.read out count)) rest
  | g, c :: rest => samplesRead cap (step cap g c) rest

/-- What a caller sees of one call: the return code (`0` for the calls that
return no code, `whisper_shared_cleanup` and `whisper_shared_available`), the
buffer a read hands back (empty for the other calls), and the value of
`whisper_shared_available` right after the call. -/
def observe (cap : Nat) (g : Globals α) : Call α → Int × List α × Nat
  | .write samples =>
      ((whisper_shared_write cap g samples).1, [],
        whisper_shared_available cap (whisper_shared_write cap g samples).2)
  | .read out count =>
      ((whisper_shared_read cap g out count).1, (whisper_shared_read cap g out count).2.1,
        whisper_shared_available cap (whisper_shared_read cap g out count).2.2)
  | .init malloc_ok =>
      ((whisper_shared_init cap malloc_ok g).1, [],
        whisper_shared_available cap (whisper_shared_init cap malloc_ok g).2)
  | .cleanup => (0, [], whisper_shared_available cap (whisper_shared_cleanup g))
  | .available => (0, [], whisper_shared_available cap g)

/-- What a caller sees of a sequence of calls. -/
def ringTrace (cap : Nat) : Globals α → List (Call α) → List (Int × List α × Nat)
  | _, [] => []
  | g, c :: rest => observe cap g c :: ringTrace cap (step cap g c) rest

end traces

/-! ### The unbounded FIFO queue the ring is compared with

These definitions follow the words of the specification, not the source: a
queue of samples that grows without bound, written at the back and read at the
front. -/

section fifo

variable {α : Type}

/-- The queue after one call: a write appends its samples, a read of `count`
samples removes the `count` oldest ones when the queue holds that many. -/
def fifoStep (q : List α) : Call α → List α
  | .write samples => q ++ samples
  | .read _ count => if count ≤ q.length then q.drop count else q
  | _ => q

/-- What a caller of the queue sees of one call: a write succeeds; a read of
`count` samples succeeds exactly when the queue holds `count` samples and then
hands back the `count` oldest samples, in the order they were written, in the
first `count` slots of the buffer; the last component is the queue length
after the call. -/
def fifoObserve (q : List α) : Call α → Int × List α × Nat
  | .write samples => (0, [], (q ++ samples).length)
  | .read out count =>
      if count ≤ q.length then (0, q.take count ++ out.drop count, (q.drop count).length)
      else (-1, out, q.length)
  | _ => (0, [], q.length)

/-- What a caller of the queue sees of a sequence of calls. -/
def fifoTrace : List α → List (Call α) → List (Int × List α × Nat)
  | _, [] => []
  | q, c :: rest => fifoObserve q c :: fifoTrace (fifoStep q c) rest

/-- The number of unread samples stays below `cap` before and after every
call of the sequence. -/
def fifoBelow (cap : Nat) : List α → List (Call α) → Bool
  | q, [] => decide (q.length < cap)
  | q, c :: rest => decide (q.length < cap) && fifoBelow cap (fifoStep q c) rest

end fifo

/-! ### The lifetime of the struct-based ring

`whisper_shared_get_buffer` and `whisper_shared_release_buffer` are the same
text in `livetranslate_whisper_audio.c` and in `livetranslate_whisper.c`.  They
keep the address of the ring in the libvlc variable `whisper-shared-buffer`.
Of that variable the model keeps the address it holds (`NULL` when the
variable does not exist or holds `NULL`, which is all `var_GetAddress` tells
the caller); its usage count belongs to libvlc.  A block that `malloc` hands
out gets an address never used before; a freed block is `none`. -/

/-- The heap blocks that hold rings, by address, and the address held by the
variable `whisper-shared-buffer`. -/
structure Shared (α : Type) where
  heap : List (Option (whisper_shared_buffer_t α))
  var : Option Nat
deriving DecidableEq, Repr

/-- The ring an address points to, when the block is live. -/
def Shared.ring {α : Type} (s : Shared α) (ptr : Nat) : Option (whisper_shared_buffer_t α) :=
  (s.heap[ptr]?).join

section lifetime

variable {α : Type} [Zero α]

/-- The function `whisper_shared_get_buffer`.  `p_libvlc` tells whether
`vlc_object_instance` returns an object, `malloc_buffer` and `malloc_samples`
whether the two calls of `malloc` return a block.  The result is the pointer
returned (`none` for `NULL`) and the state after the call. -/
def whisper_shared_get_buffer (cap : Nat) (p_libvlc malloc_buffer malloc_samples : Bool)
    (s : Shared α) : Option Nat × Shared α :=
  if !p_libvlc then (none, s)
  else
    match s.var with
    | some ptr =>
        match s.ring ptr with
        | some b =>
            (some ptr,
              { s with heap := s.heap.set ptr (some { b with ref_count := b.ref_count + 1 }) })
        | none => (some ptr, s)
    | none =>
        if !malloc_buffer then (none, s)
        else if !malloc_samples then (none, s)
        else
          (some s.heap.length,
            { heap := s.heap ++ [some { samples := List.replicate cap 0, write_pos := 0,
                                         read_pos := 0, active := true, ref_count := 1 }],
              var := some s.heap.length })

/-- The function `whisper_shared_release_buffer`, called with the pointer
`buffer`.  On the last reference the variable is cleared (when there is a
libvlc object), `active` is set to false and both blocks are freed. -/
def whisper_shared_release_buffer (p_libvlc : Bool) (s : Shared α) (buffer : Option Nat) :
    Shared α :=
  match buffer with
  | none => s
  | some ptr =>
      match s.ring ptr with
      | some b =>
          if b.ref_count = 1 then
            { heap := s.heap.set ptr none, var := if p_libvlc then none else s.var }
          else
            { s with heap := s.heap.set ptr (some { b with ref_count := b.ref_count - 1 }) }
      | none => s

/-- The state after `n` calls of `whisper_shared_get_buffer`, one after the
other, none of whose allocations fails. -/
def getBufferTimes (cap : Nat) : Nat → Shared α → Shared α
  | 0, s => s
  | n + 1, s => getBufferTimes cap n (whisper_shared_get_buffer cap true true true s).2

/-- The state after `n` calls of `whisper_shared_release_buffer` with the same
pointer, one after the other. -/
def releaseBufferTimes : Nat → Shared α → Option Nat → Shared α
  | 0, s, _ => s
  | n + 1, s, buffer =>
      releaseBufferTimes n (whisper_shared_release_buffer true s buffer) buffer

end lifetime

/-! ### Counting attaches and detaches in a sequence of calls -/

section attachCounts

variable {α : Type}

/-- The number of `whisper_shared_init` calls in a sequence. -/
def countInit : List (Call α) → Nat
  | [] => 0
  | .init _ :: rest => countInit rest + 1
  | _ :: rest => countInit rest

/-- The number of `whisper_shared_cleanup` calls in a sequence. -/
def countCleanup : List (Call α) → Nat
  | [] => 0
  | .cleanup :: rest => countCleanup rest + 1
  | _ :: rest => countCleanup rest

/-- Starting with `n` attaches outstanding, the number of outstanding attaches
is at least one before and after every call of the sequence. -/
def staysAttached : Int → List (Call α) → Bool
  | n, [] => decide (1 ≤ n)
  | n, .init _ :: rest => decide (1 ≤ n) && staysAttached (n + 1) rest
  | n, .cleanup :: rest => decide (1 ≤ n) && staysAttached (n - 1) rest
  | n, _ :: rest => decide (1 ≤ n) && staysAttached n rest

end attachCounts

/-! ### Sequences of attach and detach calls on the struct-based ring -/

/-- One call of `whisper_shared_get_buffer` or `whisper_shared_release_buffer`,
with what decides its outcome. -/
inductive LifetimeCall where
  | get (p_libvlc malloc_buffer malloc_samples : Bool)
  | release (p_libvlc : Bool) (buffer : Option Nat)
deriving DecidableEq, Repr

section lifetimeRuns

variable {α : Type} [Zero α]

/-- The state after one attach or detach call. -/
def stepShared (cap : Nat) (s : Shared α) : LifetimeCall → Shared α
  | .get p_libvlc malloc_buffer malloc_samples =>
      (whisper_shared_get_buffer cap p_libvlc malloc_buffer malloc_samples s).2
  | .release p_libvlc buffer => whisper_shared_release_buffer p_libvlc s buffer

/-- The state after a sequence of attach and detach calls. -/
def runShared (cap : Nat) (s : Shared α) (calls : List LifetimeCall) : Shared α :=
  calls.foldl (stepShared cap) s

/-- No cleanup call of the sequence comes when every successful init has
already been matched by a cleanup: `n` is the number of successful inits not
yet matched, `g` the globals the sequence starts from. -/
def cleanupsCovered (cap : Nat) : Nat → Globals α → List (Call α) → Bool
  | _, _, [] => true
  | n, g, .init malloc_ok :: rest =>
      cleanupsCovered cap (if (whisper_shared_init cap malloc_ok g).1 = 0 then n + 1 else n)
        (step cap g (.init malloc_ok)) rest
  | n, g, .cleanup :: rest =>
      decide (1 ≤ n) && cleanupsCovered cap (n - 1) (step cap g .cleanup) rest
  | n, g, c :: rest => cleanupsCovered cap n (step cap g c) rest

/-! ### The consumer: one iteration of `ProcessingThread` -/

/-- One iteration of the loop of `ProcessingThread` in `livetranslate_whisper.c`,
as far as the ring is concerned.  The first component is `none` when the
iteration reads nothing (fewer than `WHISPER_SAMPLE_RATE * 2` samples
available), and otherwise the return code of `whisper_shared_read_buffer` with
the count `samples_to_process` it was called with; then the processing buffer
and the ring after the iteration. -/
def processingIteration (cap : Nat) (buffer : Option (whisper_shared_buffer_t α))
    (process_buffer : List α) :
    Option (Int × Nat) × List α × Option (whisper_shared_buffer_t α) :=
  let available_samples := whisper_shared_available_buffer cap buffer
  if available_samples < WHISPER_SAMPLE_RATE * 2 then (none, process_buffer, buffer)
  else
    let samples_to_process :=
      if available_samples > WHISPER_SAMPLE_RATE * 5 then WHISPER_SAMPLE_RATE * 5
      else available_samples
    let r := whisper_shared_read_buffer cap buffer process_buffer samples_to_process
    (some (r.1, samples_to_process), r.2.1, r.2.2)

end lifetimeRuns

/-! ### The shell escaping of `translate_cli`

The text is the list of the bytes of the C string before its terminating NUL,
so `strlen` is the length of the list. -/

/-- The byte of the single quote. -/
def SINGLE_QUOTE : Nat := 39

/-- The byte of the backslash. -/
def BACKSLASH : Nat := 92

/-- The loop of `translate_cli` that escapes the text: `p` runs over the text,
`q` has written `written` so far; a single quote is written as quote,
backslash, quote, quote, every other byte as itself. -/
def escapeLoop : List Nat → List Nat → List Nat
  | [], written => written
  | c :: rest, written =>
      if c = SINGLE_QUOTE then
        escapeLoop rest (written ++ [SINGLE_QUOTE, BACKSLASH, SINGLE_QUOTE, SINGLE_QUOTE])
      else
        escapeLoop rest (written ++ [c])

/-- The bytes that `translate_cli` writes through `q` before the terminating
NUL. -/
def escapedText (text : List Nat) : List Nat :=
  escapeLoop text []

/-- The number of bytes `translate_cli` allocates for the escaped text:
`strlen(text) * 2 + 1`. -/
def escapedCapacity (text : List Nat) : Nat :=
  text.length * 2 + 1

/-! ### Invariants used in the proofs -/

section invariants

variable {α : Type}

/-- The samples `q` lie in the storage `buf` from slot `r` on, wrapping at
`cap`. -/
def Holds (cap : Nat) (buf : List α) (r : Nat) (q : List α) : Prop :=
  ∀ i, i < q.length → buf[(r + i) % cap]? = q[i]?

/-- The globals represent the queue `q` of unread samples: the ring is active,
the queue is shorter than `cap`, it lies in the storage from the read cursor
on, and the write cursor is right behind it. -/
def Sim (cap : Nat) (g : Globals α) (q : List α) : Prop :=
  g.g_active = true ∧ g.g_read_pos < cap ∧ q.length < cap ∧
  g.g_write_pos = (g.g_read_pos + q.length) % cap ∧
  ∃ buf, g.g_audio_samples = some buf ∧ buf.length = cap ∧ Holds cap buf g.g_read_pos q

/-- The cursors of an active, allocated ring after `W` samples written and `R`
samples read in total. -/
def Counted (cap : Nat) (g : Globals α) (W R : Nat) : Prop :=
  g.g_active = true ∧ g.g_audio_samples.isSome = true ∧ R ≤ W ∧
  g.g_write_pos = W % cap ∧ g.g_read_pos = R % cap

/-- Both cursors are below `cap` and the storage, while allocated, has `cap`
slots. -/
def WellFormed (cap : Nat) (g : Globals α) : Prop :=
  g.g_write_pos < cap ∧ g.g_read_pos < cap ∧
  ∀ buf, g.g_audio_samples = some buf → buf.length = cap

/-- The ring has been initialised more often than cleaned up and its storage
is allocated. -/
def Alive (g : Globals α) : Prop :=
  1 ≤ g.g_init_count ∧ g.g_audio_samples.isSome = true

/-- The struct-based ring `b` and the globals `g` hold the same storage
contents, cursors and active flag, the storage of the globals being allocated. -/
def Corresponds (b : whisper_shared_buffer_t α) (g : Globals α) : Prop :=
  g.g_audio_samples = some b.samples ∧ g.g_write_pos = b.write_pos
    ∧ g.g_read_pos = b.read_pos ∧ g.g_active = b.active

/-- The init count is `n`, it is positive exactly when the storage is
allocated, and exactly when the active flag is true. -/
def Lifecycle (g : Globals α) (n : Nat) : Prop :=
  g.g_init_count = (n : Int) ∧ (0 < n ↔ g.g_audio_samples.isSome = true)
    ∧ (0 < n ↔ g.g_active = true)

end invariants

/-! ### Cursor arithmetic -/

theorem mod_wrap (cap a : Nat) (ha : a < 2 * cap) :
    (a < cap ∧ a % cap = a) ∨ (cap ≤ a ∧ a % cap = a - cap) := by
  rcases Nat.lt_or_ge a cap with h | h
  · exact Or.inl ⟨h, Nat.mod_eq_of_lt h⟩
  · refine Or.inr ⟨h, ?_⟩
    rw [Nat.mod_eq_sub_mod h, Nat.mod_eq_of_lt (by omega)]

theorem availableSamples_eq_mod (cap w r : Nat) (hw : w < cap) (hr : r < cap) :
    availableSamples cap w r = (w + cap - r) % cap := by
  unfold availableSamples
  rcases mod_wrap cap (w + cap - r) (by omega) with ⟨_, h2⟩ | ⟨_, h2⟩
  · rw [h2]; split <;> omega
  · rw [h2]; split <;> omega

theorem availableSamples_lt (cap w r : Nat) (hw : w < cap) (hr : r < cap) :
    availableSamples cap w r < cap := by
  rw [availableSamples_eq_mod cap w r hw hr]
  exact Nat.mod_lt _ (by omega)

/-- With the write cursor `len` slots ahead of the read cursor (modulo `cap`),
and `len < cap`, the computed number of samples is `len`. -/
theorem availableSamples_ahead (cap r len : Nat) (hr : r < cap) (hlen : len < cap) :
    availableSamples cap ((r + len) % cap) r = len := by
  unfold availableSamples
  rcases mod_wrap cap (r + len) (by omega) with ⟨_, h2⟩ | ⟨_, h2⟩
  · rw [h2]; split <;> omega
  · rw [h2]; split <;> omega

/-- Two offsets below `cap` from the same cursor reach different slots. -/
theorem slot_ne (cap r i j : Nat) (hi : i < cap) (hj : j < cap) (hij : i ≠ j) :
    (r + i) % cap ≠ (r + j) % cap := by
  intro h
  have hc : 0 < cap := by omega
  have h1 : (r % cap + i) % cap = (r % cap + j) % cap := by
    rw [Nat.mod_add_mod, Nat.mod_add_mod]; exact h
  have hr : r % cap < cap := Nat.mod_lt _ hc
  rcases mod_wrap cap (r % cap + i) (by omega) with ⟨_, h2⟩ | ⟨_, h2⟩ <;>
  rcases mod_wrap cap (r % cap + j) (by omega) with ⟨_, h3⟩ | ⟨_, h3⟩ <;>
  · rw [h2, h3] at h1; omega

/-! ### The write loop -/

section loopLemmas

variable {α : Type}

theorem writeLoop_append (cap : Nat) (xs ys buf : List α) (w : Nat) :
    writeLoop cap (xs ++ ys) buf w
      = writeLoop cap ys (writeLoop cap xs buf w).1 (writeLoop cap xs buf w).2 := by
  induction xs generalizing buf w with
  | nil => rfl
  | cons x rest ih => simp only [List.cons_append, writeLoop]; exact ih _ _

theorem writeLoop_length (cap : Nat) (xs buf : List α) (w : Nat) :
    (writeLoop cap xs buf w).1.length = buf.length := by
  induction xs generalizing buf w with
  | nil => rfl
  | cons x rest ih => simp only [writeLoop]; rw [ih]; simp

theorem writeLoop_pos (cap : Nat) (xs buf : List α) (w : Nat) (hw : w < cap) :
    (writeLoop cap xs buf w).2 = (w + xs.length) % cap := by
  induction xs generalizing buf w with
  | nil => simp [writeLoop, Nat.mod_eq_of_lt hw]
  | cons x rest ih =>
      simp only [writeLoop, List.length_cons]
      rw [ih _ _ (Nat.mod_lt _ (by omega)), Nat.mod_add_mod]
      congr 1; omega

theorem writeLoop_pos_lt (cap : Nat) (xs buf : List α) (w : Nat) (hw : w < cap) :
    (writeLoop cap xs buf w).2 < cap := by
  rw [writeLoop_pos cap xs buf w hw]; exact Nat.mod_lt _ (by omega)

/-- A slot that no iteration of the loop addresses keeps its value. -/
theorem writeLoop_slot_untouched (cap : Nat) (xs buf : List α) (w p : Nat) (hw : w < cap)
    (h : ∀ i, i < xs.length → (w + i) % cap ≠ p) :
    (writeLoop cap xs buf w).1[p]? = buf[p]? := by
  induction xs using List.reverseRecOn with
  | nil => rfl
  | append_singleton xs x ih =>
      rw [writeLoop_append]
      simp only [writeLoop]
      rw [writeLoop_pos cap xs buf w hw]
      have hlast := h xs.length (by simp)
      rw [List.getElem?_set_ne hlast]
      exact ih (fun i hi => h i (by simp; omega))

/-- The slot addressed by iteration `i` and by no later iteration holds
sample `i` after the loop. -/
theorem writeLoop_slot_last (cap : Nat) (xs buf : List α) (w i : Nat) (hw : w < cap)
    (hlen : buf.length = cap) (hi : i < xs.length)
    (hlast : ∀ j, i < j → j < xs.length → (w + j) % cap ≠ (w + i) % cap) :
    (writeLoop cap xs buf w).1[(w + i) % cap]? = xs[i]? := by
  induction xs using List.reverseRecOn with
  | nil => simp at hi
  | append_singleton xs x ih =>
      rw [writeLoop_append]
      simp only [writeLoop]
      rw [writeLoop_pos cap xs buf w hw]
      rcases Nat.lt_or_ge i xs.length with h | h
      · have hne := hlast xs.length h (by simp)
        rw [List.getElem?_set_ne hne, List.getElem?_append_left h]
        exact ih h (fun j hj hj2 => hlast j hj (by simp; omega))
      · have hi2 : i = xs.length := by simp at hi; omega
        subst hi2
        rw [List.getElem?_set_self (by
          rw [writeLoop_length, hlen]; exact Nat.mod_lt _ (by omega))]
        simp

/-! ### The read loop -/

theorem readLoop_length [Zero α] (cap : Nat) (buf : List α) (r n : Nat) (out : List α) :
    (readLoop cap buf r n out).length = out.length := by
  induction n with
  | zero => rfl
  | succ n ih => simp [readLoop, ih]

theorem readLoop_getElem? [Zero α] (cap : Nat) (buf : List α) (r n : Nat) (out : List α) (i : Nat) :
    (readLoop cap buf r n out)[i]?
      = if i < n ∧ i < out.length then some (buf.getD ((r + i) % cap) 0) else out[i]? := by
  induction n with
  | zero => simp [readLoop]
  | succ n ih =>
      simp only [readLoop]
      rw [List.getElem?_set, readLoop_length]
      by_cases hin : n = i
      · subst hin
        by_cases hlt : n < out.length
        · simp [hlt]
        · simp [hlt]; omega
      · rw [if_neg hin, ih]
        by_cases h1 : i < n ∧ i < out.length
        · rw [if_pos h1, if_pos ⟨by omega, h1.2⟩]
        · rw [if_neg h1, if_neg (by intro h; exact h1 ⟨by omega, h.2⟩)]

end loopLemmas

/-! ### The unread samples as a window of the storage -/

section window

variable {α : Type}

theorem holds_write (cap : Nat) (buf : List α) (r : Nat) (q xs : List α)
    (hlen : buf.length = cap) (hfit : q.length + xs.length < cap)
    (h : Holds cap buf r q) :
    Holds cap (writeLoop cap xs buf ((r + q.length) % cap)).1 r (q ++ xs) := by
  have hc : 0 < cap := by omega
  have hw : (r + q.length) % cap < cap := Nat.mod_lt _ hc
  have hslot : ∀ j, ((r + q.length) % cap + j) % cap = (r + (q.length + j)) % cap := by
    intro j; rw [Nat.mod_add_mod, Nat.add_assoc]
  intro i hi
  rw [List.length_append] at hi
  rcases Nat.lt_or_ge i q.length with hlt | hge
  · rw [writeLoop_slot_untouched cap xs buf _ _ hw, List.getElem?_append_left hlt]
    · exact h i hlt
    · intro j hj
      rw [hslot]
      exact slot_ne cap r _ _ (by omega) (by omega) (by omega)
  · obtain ⟨j, rfl⟩ : ∃ j, i = q.length + j := ⟨i - q.length, by omega⟩
    rw [← hslot, writeLoop_slot_last cap xs buf _ j hw hlen (by omega),
      List.getElem?_append_right (by omega)]
    · congr 1; omega
    · intro j2 h1 h2
      rw [hslot, hslot]
      exact slot_ne cap r _ _ (by omega) (by omega) (by omega)

theorem holds_drop (cap : Nat) (buf : List α) (r n : Nat) (q : List α)
    (h : Holds cap buf r q) : Holds cap buf ((r + n) % cap) (q.drop n) := by
  intro i hi
  rw [List.length_drop] at hi
  rw [Nat.mod_add_mod, Nat.add_assoc, List.getElem?_drop]
  exact h (n + i) (by omega)

theorem readLoop_window [Zero α] (cap : Nat) (buf : List α) (r n : Nat) (q out : List α)
    (h : Holds cap buf r q) (hn : n ≤ q.length) (hroom : n ≤ out.length) :
    readLoop cap buf r n out = q.take n ++ out.drop n := by
  apply List.ext_getElem?
  intro i
  rw [readLoop_getElem?]
  rcases Nat.lt_or_ge i n with hlt | hge
  · rw [if_pos ⟨hlt, by omega⟩, List.getElem?_append_left (by simp; omega),
      List.getElem?_take_of_lt hlt, List.getD_eq_getElem?_getD, h i (by omega),
      List.getElem?_eq_getElem (by omega)]
    rfl
  · rw [if_neg (by omega), List.getElem?_append_right (by simp; omega),
      List.getElem?_drop]
    congr 1
    simp
    omega

end window

/-! ### The three operations on an active, allocated ring -/

section unfolding

variable {α : Type}

theorem write_active (cap : Nat) (g : Globals α) (buf xs : List α)
    (hact : g.g_active = true) (hbuf : g.g_audio_samples = some buf) :
    whisper_shared_write cap g xs
      = (0, { g with g_audio_samples := some (writeLoop cap xs buf g.g_write_pos).1,
                     g_write_pos := (writeLoop cap xs buf g.g_write_pos).2 }) := by
  obtain ⟨s, w, r, a, c⟩ := g
  simp only at hact hbuf
  subst hact hbuf
  rfl

theorem available_active (cap : Nat) (g : Globals α) (buf : List α)
    (hact : g.g_active = true) (hbuf : g.g_audio_samples = some buf) :
    whisper_shared_available cap g = availableSamples cap g.g_write_pos g.g_read_pos := by
  obtain ⟨s, w, r, a, c⟩ := g
  simp only at hact hbuf
  subst hact hbuf
  rfl

theorem write_inactive (cap : Nat) (g : Globals α) (xs : List α)
    (h : g.g_active = false ∨ g.g_audio_samples = none) :
    whisper_shared_write cap g xs = (-1, g) := by
  obtain ⟨s, w, r, a, c⟩ := g
  simp only at h
  rcases h with h | h
  · subst h; rfl
  · subst h; cases a <;> rfl

theorem read_active [Zero α] (cap : Nat) (g : Globals α) (buf out : List α) (n : Nat)
    (hact : g.g_active = true) (hbuf : g.g_audio_samples = some buf) :
    whisper_shared_read cap g out n
      = if availableSamples cap g.g_write_pos g.g_read_pos < n then (-1, out, g)
        else (0, readLoop cap buf g.g_read_pos n out,
              { g with g_read_pos := (g.g_read_pos + n) % cap }) := by
  obtain ⟨s, w, r, a, c⟩ := g
  simp only at hact hbuf
  subst hact hbuf
  rfl

/-- A read of more samples than `whisper_shared_available` reports fails and
changes nothing, whatever the state. -/
theorem read_short [Zero α] (cap : Nat) (g : Globals α) (out : List α) (n : Nat)
    (hact : g.g_active = true) (h : whisper_shared_available cap g < n) :
    whisper_shared_read cap g out n = (-1, out, g) := by
  obtain ⟨s, w, r, a, c⟩ := g
  simp only at hact
  subst hact
  cases s with
  | none => rfl
  | some buf =>
      have h2 : availableSamples cap w r < n := h
      show (if availableSamples cap w r < n then _ else _) = _
      rw [if_pos h2]

end unfolding

/-! ### The globals as a queue -/

section simulation

variable {α : Type}

theorem sim_fresh [Zero α] (cap : Nat) (hc : 0 < cap) : Sim cap (freshRing cap : Globals α) [] := by
  refine ⟨rfl, hc, hc, ?_, List.replicate cap 0, rfl, by simp, ?_⟩
  · show 0 = (0 + 0) % cap
    simp
  · intro i hi
    simp at hi

theorem sim_available (cap : Nat) (g : Globals α) (q : List α) (h : Sim cap g q) :
    whisper_shared_available cap g = q.length := by
  obtain ⟨hact, hr, hq, hw, buf, hbuf, -, -⟩ := h
  rw [available_active cap g buf hact hbuf, hw]
  exact availableSamples_ahead cap _ _ hr hq

theorem sim_write (cap : Nat) (g : Globals α) (q xs : List α) (h : Sim cap g q)
    (hfit : q.length + xs.length < cap) :
    (whisper_shared_write cap g xs).1 = 0
      ∧ Sim cap (whisper_shared_write cap g xs).2 (q ++ xs) := by
  obtain ⟨hact, hr, hq, hw, buf, hbuf, hlen, hh⟩ := h
  have hc : 0 < cap := by omega
  rw [write_active cap g buf xs hact hbuf]
  refine ⟨rfl, hact, hr, by simp; omega, ?_, _, rfl, ?_, ?_⟩
  · show (writeLoop cap xs buf g.g_write_pos).2 = _
    rw [writeLoop_pos cap xs buf _ (by rw [hw]; exact Nat.mod_lt _ hc), hw,
      Nat.mod_add_mod, List.length_append, Nat.add_assoc]
  · rw [writeLoop_length, hlen]
  · show Holds cap (writeLoop cap xs buf g.g_write_pos).1 g.g_read_pos (q ++ xs)
    rw [hw]
    exact holds_write cap buf _ q xs hlen hfit hh

theorem sim_read_fail [Zero α] (cap : Nat) (g : Globals α) (q out : List α) (n : Nat)
    (h : Sim cap g q) (hn : q.length < n) :
    whisper_shared_read cap g out n = (-1, out, g) :=
  read_short cap g out n h.1 (by rw [sim_available cap g q h]; exact hn)

theorem sim_read_ok [Zero α] (cap : Nat) (g : Globals α) (q out : List α) (n : Nat)
    (h : Sim cap g q) (hn : n ≤ q.length) (hroom : n ≤ out.length) :
    (whisper_shared_read cap g out n).1 = 0
      ∧ (whisper_shared_read cap g out n).2.1 = q.take n ++ out.drop n
      ∧ Sim cap (whisper_shared_read cap g out n).2.2 (q.drop n) := by
  have hav := sim_available cap g q h
  obtain ⟨hact, hr, hq, hw, buf, hbuf, hlen, hh⟩ := h
  have hc : 0 < cap := by omega
  rw [available_active cap g buf hact hbuf] at hav
  rw [read_active cap g buf out n hact hbuf, hav, if_neg (Nat.not_lt.mpr hn)]
  refine ⟨rfl, readLoop_window cap buf _ n q out hh hn hroom, hact,
    Nat.mod_lt _ hc, by simp; omega, ?_, buf, hbuf, hlen, holds_drop cap buf _ n q hh⟩
  show g.g_write_pos = ((g.g_read_pos + n) % cap + (q.drop n).length) % cap
  rw [hw, Nat.mod_add_mod, List.length_drop]
  congr 1
  omega

end simulation

/-! ### Cursors as running totals -/

theorem availableSamples_totals (cap W R : Nat) (hc : 0 < cap) (h : R ≤ W) :
    availableSamples cap (W % cap) (R % cap) = (W - R) % cap := by
  rw [availableSamples_eq_mod cap _ _ (Nat.mod_lt _ hc) (Nat.mod_lt _ hc)]
  have hW : W % cap = (R % cap + (W - R) % cap) % cap := by
    rw [← Nat.add_mod]; congr 1; omega
  have ha : R % cap < cap := Nat.mod_lt _ hc
  have hd : (W - R) % cap < cap := Nat.mod_lt _ hc
  rw [hW]
  rcases mod_wrap cap (R % cap + (W - R) % cap) (by omega) with ⟨_, h2⟩ | ⟨_, h2⟩
  · rw [h2]
    have : R % cap + (W - R) % cap + cap - R % cap = (W - R) % cap + cap := by omega
    rw [this, Nat.add_mod_right, Nat.mod_mod]
  · rw [h2]
    have : R % cap + (W - R) % cap - cap + cap - R % cap = (W - R) % cap := by omega
    rw [this, Nat.mod_mod]

section totals

variable {α : Type}

theorem counted_fresh [Zero α] (cap : Nat) : Counted cap (freshRing cap : Globals α) 0 0 :=
  ⟨rfl, rfl, Nat.le_refl _, by simp [freshRing, whisper_shared_init, Globals.initial],
    by simp [freshRing, whisper_shared_init, Globals.initial]⟩

theorem counted_available (cap : Nat) (g : Globals α) (W R : Nat) (hc : 0 < cap)
    (h : Counted cap g W R) : whisper_shared_available cap g = (W - R) % cap := by
  obtain ⟨hact, hsome, hle, hw, hr⟩ := h
  obtain ⟨buf, hbuf⟩ := Option.isSome_iff_exists.mp hsome
  rw [available_active cap g buf hact hbuf, hw, hr]
  exact availableSamples_totals cap W R hc hle

theorem counted_write (cap : Nat) (g : Globals α) (W R : Nat) (xs : List α) (hc : 0 < cap)
    (h : Counted cap g W R) :
    Counted cap (whisper_shared_write cap g xs).2 (W + xs.length) R := by
  obtain ⟨hact, hsome, hle, hw, hr⟩ := h
  obtain ⟨buf, hbuf⟩ := Option.isSome_iff_exists.mp hsome
  rw [write_active cap g buf xs hact hbuf]
  refine ⟨hact, rfl, by omega, ?_, hr⟩
  show (writeLoop cap xs buf g.g_write_pos).2 = _
  rw [writeLoop_pos cap xs buf _ (by rw [hw]; exact Nat.mod_lt _ hc), hw, Nat.mod_add_mod]

theorem counted_read [Zero α] (cap : Nat) (g : Globals α) (W R : Nat) (out : List α) (n : Nat)
    (hc : 0 < cap) (h : Counted cap g W R) :
    Counted cap (whisper_shared_read cap g out n).2.2
      (W + 0) (R + if (whisper_shared_read cap g out n).1 = 0 then n else 0) := by
  have hav := counted_available cap g W R hc h
  obtain ⟨hact, hsome, hle, hw, hr⟩ := h
  obtain ⟨buf, hbuf⟩ := Option.isSome_iff_exists.mp hsome
  rw [available_active cap g buf hact hbuf] at hav
  rw [read_active cap g buf out n hact hbuf]
  by_cases hn : availableSamples cap g.g_write_pos g.g_read_pos < n
  · rw [if_pos hn]
    exact ⟨hact, hsome, by simpa using hle, by simpa using hw, by simpa using hr⟩
  · rw [if_neg hn]
    have hmod : (W - R) % cap ≤ W - R := Nat.mod_le _ _
    refine ⟨hact, hsome, ?_, by simpa using hw, ?_⟩
    · simp only [if_true]; omega
    · show (g.g_read_pos + n) % cap = _
      simp only [if_true]
      rw [hr, Nat.mod_add_mod]

theorem counted_run [Zero α] (cap : Nat) (calls : List (Call α)) (g : Globals α) (W R : Nat)
    (hc : 0 < cap) (hT : ∀ c ∈ calls, c.isTransfer = true) (h : Counted cap g W R) :
    Counted cap (run cap g calls) (W + samplesWritten calls)
      (R + samplesRead cap g calls) := by
  induction calls generalizing g W R with
  | nil => exact h
  | cons c rest ih =>
      have hrest : ∀ c ∈ rest, c.isTransfer = true :=
        fun c hc2 => hT c (List.mem_cons_of_mem _ hc2)
      have hc1 := hT c (List.mem_cons_self _ _)
      cases c with
      | init ok => exact absurd hc1 (by simp [Call.isTransfer])
      | cleanup => exact absurd hc1 (by simp [Call.isTransfer])
      | write xs =>
          have := ih (step cap g (.write xs)) (W + xs.length) R hrest
            (counted_write cap g W R xs hc h)
          simpa [run, samplesWritten, samplesRead, Nat.add_assoc] using this
      | read out n =>
          have := ih (step cap g (.read out n)) (W + 0) _ hrest
            (counted_read cap g W R out n hc h)
          simpa [run, samplesWritten, samplesRead, Nat.add_assoc] using this
      | available =>
          have := ih (step cap g .available) W R hrest h
          simpa [run, samplesWritten, samplesRead] using this

end totals

/-! ### The most recent samples in the storage -/

/-- After the write loop, each of the last `cap` samples written is in the slot
the loop stored it in. -/
theorem writeLoop_recent {α : Type} (cap : Nat) (xs buf : List α) (w j : Nat) (hw : w < cap)
    (hlen : buf.length = cap) (hj : j < xs.length) (hrecent : xs.length ≤ j + cap) :
    (writeLoop cap xs buf w).1[(w + j) % cap]? = xs[j]? := by
  apply writeLoop_slot_last cap xs buf w j hw hlen hj
  intro j2 h1 h2
  obtain ⟨e, rfl⟩ : ∃ e, j2 = j + e := ⟨j2 - j, by omega⟩
  have := slot_ne cap (w + j) e 0 (by omega) (by omega) (by omega)
  simpa [Nat.add_assoc] using this

section overflow

variable {α : Type}

/-- After `cap + k` samples `s` are written to a fresh ring, the storage holds
the last `cap` of them, sample `j` in slot `j % cap`. -/
theorem fresh_write_storage [Zero α] (cap k : Nat) (s : List α) (hc : 0 < cap)
    (hs : s.length = cap + k) :
    ∃ buf, (whisper_shared_write cap (freshRing cap) s).2.g_audio_samples = some buf
      ∧ buf.length = cap ∧ ∀ j, k ≤ j → j < cap + k → buf[j % cap]? = s[j]? := by
  rw [write_active cap (freshRing cap) (List.replicate cap 0) s rfl rfl]
  refine ⟨_, rfl, by rw [writeLoop_length]; simp, fun j h1 h2 => ?_⟩
  have := writeLoop_recent cap s (List.replicate cap 0) 0 j hc (by simp) (by omega) (by omega)
  rw [Nat.zero_add] at this
  exact this

/-- After `cap + k` samples `s` are written to a fresh ring, the globals
represent the queue of the last `k % cap` samples. -/
theorem sim_after_overflow [Zero α] (cap k : Nat) (s : List α) (hc : 0 < cap)
    (hs : s.length = cap + k) :
    Sim cap (whisper_shared_write cap (freshRing cap) s).2 (s.drop (cap + k - k % cap)) := by
  have hm : k % cap < cap := Nat.mod_lt _ hc
  have hle : k % cap ≤ k := Nat.mod_le _ _
  have hqlen : (s.drop (cap + k - k % cap)).length = k % cap := by
    rw [List.length_drop, hs]; omega
  have hcnt := counted_write cap _ 0 0 s hc (counted_fresh cap)
  obtain ⟨hact, -, -, hw, hr⟩ := hcnt
  obtain ⟨buf, hbuf, hlen, hslots⟩ := fresh_write_storage cap k s hc hs
  rw [Nat.zero_mod] at hr
  refine ⟨hact, by rw [hr]; exact hc, by rw [hqlen]; exact hm, ?_, buf, hbuf, hlen, ?_⟩
  · rw [hw, hr, hqlen, hs, Nat.zero_add, Nat.zero_add, Nat.add_mod_left, Nat.mod_mod]
  · intro i hi
    rw [hqlen] at hi
    rw [hr, Nat.zero_add, List.getElem?_drop, Nat.mod_eq_of_lt (by omega)]
    have hdiv : cap + k - k % cap = cap * ((cap + k) / cap) := by
      have h1 := Nat.div_add_mod (cap + k) cap
      rw [Nat.add_mod_left] at h1
      omega
    have hmod : (cap + k - k % cap + i) % cap = i := by
      rw [hdiv, Nat.mul_add_mod, Nat.mod_eq_of_lt (by omega)]
    have := hslots (cap + k - k % cap + i) (by omega) (by omega)
    rw [hmod] at this
    exact this

end overflow

/-! ### Traces of the ring and of the queue -/

theorem fifoBelow_head {α : Type} (cap : Nat) (q : List α) (calls : List (Call α))
    (h : fifoBelow cap q calls = true) : q.length < cap := by
  cases calls with
  | nil => simpa [fifoBelow] using h
  | cons c rest =>
      simp only [fifoBelow, Bool.and_eq_true, decide_eq_true_eq] at h
      exact h.1

theorem trace_of_sim {α : Type} [Zero α] (cap : Nat) (calls : List (Call α)) (g : Globals α)
    (q : List α) (hsim : Sim cap g q)
    (hT : ∀ c ∈ calls, c.isTransfer = true) (hroom : ∀ c ∈ calls, c.roomy = true)
    (hbelow : fifoBelow cap q calls = true) :
    ringTrace cap g calls = fifoTrace q calls := by
  induction calls generalizing g q with
  | nil => rfl
  | cons c rest ih =>
      have hrestT : ∀ c ∈ rest, c.isTransfer = true :=
        fun c hc2 => hT c (List.mem_cons_of_mem _ hc2)
      have hrestR : ∀ c ∈ rest, c.roomy = true :=
        fun c hc2 => hroom c (List.mem_cons_of_mem _ hc2)
      have hc1 := hT c (List.mem_cons_self _ _)
      have hr1 := hroom c (List.mem_cons_self _ _)
      simp only [fifoBelow, Bool.and_eq_true, decide_eq_true_eq] at hbelow
      have hnext := fifoBelow_head cap _ rest hbelow.2
      simp only [ringTrace, fifoTrace]
      cases c with
      | init ok => exact absurd hc1 (by simp [Call.isTransfer])
      | cleanup => exact absurd hc1 (by simp [Call.isTransfer])
      | write xs =>
          simp only [fifoStep, List.length_append] at hnext
          have hw := sim_write cap g q xs hsim hnext
          have hav := sim_available cap _ _ hw.2
          rw [ih (step cap g (.write xs)) (fifoStep q (.write xs)) hw.2 hrestT hrestR hbelow.2]
          simp only [observe, fifoObserve, hw.1, hav]
      | read out n =>
          simp only [Call.roomy, decide_eq_true_eq] at hr1
          by_cases hn : n ≤ q.length
          · have hrd := sim_read_ok cap g q out n hsim hn hr1
            have hav := sim_available cap _ _ hrd.2.2
            have hstep : fifoStep q (.read out n) = q.drop n := by simp [fifoStep, hn]
            rw [ih (step cap g (.read out n)) (fifoStep q (.read out n))
              (by rw [hstep]; exact hrd.2.2) hrestT hrestR hbelow.2]
            simp only [observe, fifoObserve, hrd.1, hrd.2.1, hav, if_pos hn]
          · have hrd := sim_read_fail cap g q out n hsim (by omega)
            have hav := sim_available cap g q hsim
            have hstep : fifoStep q (.read out n) = q := by simp [fifoStep, hn]
            rw [ih (step cap g (.read out n)) (fifoStep q (.read out n))
              (by rw [hstep]; simp only [step, hrd]; exact hsim) hrestT hrestR hbelow.2]
            simp only [observe, fifoObserve, hrd, hav, if_neg hn]
      | available =>
          have hav := sim_available cap g q hsim
          rw [ih (step cap g .available) (fifoStep q .available) hsim hrestT hrestR hbelow.2]
          simp only [observe, fifoObserve, step, hav]

/-! ### Every call keeps the cursors in range -/

section wellFormed

variable {α : Type}

theorem wellFormed_cleanup (cap : Nat) (g : Globals α) (h : WellFormed cap g) :
    WellFormed cap (whisper_shared_cleanup g) := by
  obtain ⟨hw, hr, hs⟩ := h
  unfold whisper_shared_cleanup
  by_cases h1 : g.g_init_count = 1
  · simp only [h1, if_true]
    exact ⟨hw, hr, fun buf hb => by cases hb⟩
  · simp only [h1, if_false]
    exact ⟨hw, hr, hs⟩

theorem wellFormed_fresh [Zero α] (cap : Nat) (hc : 0 < cap) :
    WellFormed cap (freshRing cap : Globals α) :=
  ⟨hc, hc, fun buf h => by
    have : buf = List.replicate cap 0 := by
      have h2 : some (List.replicate cap (0 : α)) = some buf := h
      exact (Option.some.inj h2).symm
    rw [this]; simp⟩

theorem wellFormed_init [Zero α] (cap : Nat) (ok : Bool) (g : Globals α) (h : WellFormed cap g)
    (hc : 0 < cap) : WellFormed cap (whisper_shared_init cap ok g).2 := by
  obtain ⟨hw, hr, hs⟩ := h
  unfold whisper_shared_init
  by_cases h0 : g.g_init_count = 0
  · cases ok with
    | true =>
        simp only [h0, if_true]
        refine ⟨hc, hc, fun buf hb => ?_⟩
        have : buf = List.replicate cap 0 := (Option.some.inj hb).symm
        rw [this]; simp
    | false =>
        simp only [h0, if_true]
        exact ⟨hw, hr, fun buf hb => by cases hb⟩
  · simp only [h0, if_false]
    exact ⟨hw, hr, hs⟩

theorem read_inactive [Zero α] (cap : Nat) (g : Globals α) (out : List α) (n : Nat)
    (h : g.g_active = false ∨ g.g_audio_samples = none) :
    whisper_shared_read cap g out n = (-1, out, g) := by
  obtain ⟨s, w, r, a, c⟩ := g
  simp only at h
  rcases h with h | h
  · subst h; rfl
  · subst h; cases a <;> rfl

theorem wellFormed_write (cap : Nat) (g : Globals α) (xs : List α) (h : WellFormed cap g) :
    WellFormed cap (whisper_shared_write cap g xs).2 := by
  by_cases hact : g.g_active = true
  · cases hbuf : g.g_audio_samples with
    | none => rw [write_inactive cap g xs (Or.inr hbuf)]; exact h
    | some buf =>
        obtain ⟨hw, hr, hs⟩ := h
        rw [write_active cap g buf xs hact hbuf]
        refine ⟨writeLoop_pos_lt cap xs buf _ hw, hr, fun b hb => ?_⟩
        have : b = (writeLoop cap xs buf g.g_write_pos).1 := (Option.some.inj hb).symm
        rw [this, writeLoop_length]
        exact hs buf hbuf
  · rw [write_inactive cap g xs (Or.inl (by simpa using hact))]; exact h

theorem wellFormed_read [Zero α] (cap : Nat) (g : Globals α) (out : List α) (n : Nat)
    (h : WellFormed cap g) : WellFormed cap (whisper_shared_read cap g out n).2.2 := by
  by_cases hact : g.g_active = true
  · cases hbuf : g.g_audio_samples with
    | none => rw [read_inactive cap g out n (Or.inr hbuf)]; exact h
    | some buf =>
        rw [read_active cap g buf out n hact hbuf]
        split
        · exact h
        · obtain ⟨hw, hr, hs⟩ := h
          exact ⟨hw, Nat.mod_lt _ (by omega), hs⟩
  · rw [read_inactive cap g out n (Or.inl (by simpa using hact))]; exact h

theorem wellFormed_step [Zero α] (cap : Nat) (g : Globals α) (c : Call α) (hc : 0 < cap)
    (h : WellFormed cap g) : WellFormed cap (step cap g c) := by
  cases c with
  | init ok => exact wellFormed_init cap ok g h hc
  | cleanup => exact wellFormed_cleanup cap g h
  | write xs => exact wellFormed_write cap g xs h
  | read out n => exact wellFormed_read cap g out n h
  | available => exact h

theorem wellFormed_run [Zero α] (cap : Nat) (calls : List (Call α)) (g : Globals α) (hc : 0 < cap)
    (h : WellFormed cap g) : WellFormed cap (run cap g calls) := by
  induction calls generalizing g with
  | nil => exact h
  | cons c rest ih => exact ih (step cap g c) (wellFormed_step cap g c hc h)

theorem alive_step [Zero α] (cap : Nat) (g : Globals α) (c : Call α) (hne : c ≠ .cleanup)
    (h : Alive g) : Alive (step cap g c) := by
  obtain ⟨h1, h2⟩ := h
  cases c with
  | init ok =>
      have h0 : g.g_init_count ≠ 0 := by omega
      simp only [step, whisper_shared_init, h0, if_false]
      exact ⟨by show 1 ≤ g.g_init_count + 1; omega, h2⟩
  | cleanup => exact absurd rfl hne
  | write xs =>
      obtain ⟨buf, hbuf⟩ := Option.isSome_iff_exists.mp h2
      by_cases hact : g.g_active = true
      · simp only [step, write_active cap g buf xs hact hbuf]
        exact ⟨h1, rfl⟩
      · simp only [step, write_inactive cap g xs (Or.inl (by simpa using hact))]
        exact ⟨h1, h2⟩
  | read out n =>
      obtain ⟨buf, hbuf⟩ := Option.isSome_iff_exists.mp h2
      by_cases hact : g.g_active = true
      · simp only [step, read_active cap g buf out n hact hbuf]
        split
        · exact ⟨h1, h2⟩
        · exact ⟨h1, h2⟩
      · simp only [step, read_inactive cap g out n (Or.inl (by simpa using hact))]
        exact ⟨h1, h2⟩
  | available => exact ⟨h1, h2⟩

theorem alive_run [Zero α] (cap : Nat) (calls : List (Call α)) (g : Globals α)
    (hne : ∀ c ∈ calls, c ≠ .cleanup) (h : Alive g) : Alive (run cap g calls) := by
  induction calls generalizing g with
  | nil => exact h
  | cons c rest ih =>
      exact ih (step cap g c) (fun c2 hc2 => hne c2 (List.mem_cons_of_mem _ hc2))
        (alive_step cap g c (hne c (List.mem_cons_self _ _)) h)

end wellFormed

/-! ### The available count as a difference of integers -/

theorem availableSamples_int (cap w r : Nat) (hw : w < cap) (hr : r < cap) :
    (availableSamples cap w r : Int) = ((w : Int) - (r : Int)) % (cap : Int) := by
  rw [availableSamples_eq_mod cap w r hw hr, Int.ofNat_emod]
  have h : ((w + cap - r : Nat) : Int) = ((w : Int) - (r : Int)) + (cap : Int) := by omega
  rw [h, Int.add_emod_self]

theorem read_code_zero_iff {α : Type} [Zero α] (cap : Nat) (g : Globals α) (buf out : List α)
    (n : Nat) (hact : g.g_active = true) (hbuf : g.g_audio_samples = some buf) :
    ((whisper_shared_read cap g out n).1 = 0 ↔ n ≤ whisper_shared_available cap g)
      ∧ ((whisper_shared_read cap g out n).1 = -1 ↔ whisper_shared_available cap g < n) := by
  rw [read_active cap g buf out n hact hbuf, available_active cap g buf hact hbuf]
  by_cases h : availableSamples cap g.g_write_pos g.g_read_pos < n
  · rw [if_pos h]
    exact ⟨⟨fun h2 => absurd h2 (by simp), fun h2 => absurd h (by omega)⟩,
      ⟨fun _ => h, fun _ => rfl⟩⟩
  · rw [if_neg h]
    exact ⟨⟨fun _ => by omega, fun _ => rfl⟩,
      ⟨fun h2 => absurd h2 (by simp), fun h2 => absurd h2 h⟩⟩

/-! ### Attach and detach on the globals -/

section attach

variable {α : Type}

theorem init_attached [Zero α] (cap : Nat) (ok : Bool) (g : Globals α)
    (h : g.g_init_count ≠ 0) :
    whisper_shared_init cap ok g
      = (0, { g with g_init_count := g.g_init_count + 1, g_active := true }) := by
  simp only [whisper_shared_init, h, if_false]

theorem init_first [Zero α] (cap : Nat) (g : Globals α) (h : g.g_init_count = 0) :
    whisper_shared_init cap true g
      = (0, { g_audio_samples := some (List.replicate cap 0), g_write_pos := 0,
              g_read_pos := 0, g_active := true, g_init_count := 1 }) := by
  simp only [whisper_shared_init, h, if_true]
  rfl

theorem init_first_failed [Zero α] (cap : Nat) (g : Globals α) (h : g.g_init_count = 0) :
    whisper_shared_init cap false g = (-1, { g with g_audio_samples := none }) := by
  obtain ⟨s, w, r, a, c⟩ := g
  simp only at h
  subst h
  rfl

theorem cleanup_last (g : Globals α) (h : g.g_init_count = 1) :
    whisper_shared_cleanup g
      = { g with g_init_count := 0, g_active := false, g_audio_samples := none } := by
  obtain ⟨s, w, r, a, c⟩ := g
  simp only at h
  subst h
  rfl

theorem cleanup_other (g : Globals α) (h : g.g_init_count ≠ 1) :
    whisper_shared_cleanup g = { g with g_init_count := g.g_init_count - 1 } := by
  simp only [whisper_shared_cleanup, h, if_false]

/-- A write, read or available call leaves the active flag, the init count
and the allocation of the storage as they are. -/
theorem step_transfer_frame [Zero α] (cap : Nat) (g : Globals α) (c : Call α)
    (hT : c.isTransfer = true) :
    (step cap g c).g_active = g.g_active
      ∧ (step cap g c).g_init_count = g.g_init_count
      ∧ (step cap g c).g_audio_samples.isSome = g.g_audio_samples.isSome := by
  obtain ⟨s, w, r, a, ic⟩ := g
  cases c with
  | init ok => exact absurd hT (by simp [Call.isTransfer])
  | cleanup => exact absurd hT (by simp [Call.isTransfer])
  | write xs => cases a <;> cases s <;> exact ⟨rfl, rfl, rfl⟩
  | read out n =>
      cases a <;> cases s <;> try exact ⟨rfl, rfl, rfl⟩
      simp only [step, whisper_shared_read]
      split <;> exact ⟨rfl, rfl, rfl⟩
  | available => exact ⟨rfl, rfl, rfl⟩

/-- A write, read or available call does not look at the init count. -/
theorem step_transfer_count [Zero α] (cap : Nat) (g : Globals α) (c : Call α) (m : Int)
    (hT : c.isTransfer = true) :
    step cap { g with g_init_count := m } c = { step cap g c with g_init_count := m } := by
  obtain ⟨s, w, r, a, ic⟩ := g
  cases c with
  | init ok => exact absurd hT (by simp [Call.isTransfer])
  | cleanup => exact absurd hT (by simp [Call.isTransfer])
  | write xs => cases a <;> cases s <;> rfl
  | read out n =>
      cases a <;> cases s <;> try rfl
      simp only [step, whisper_shared_read]
      split <;> rfl
  | available => rfl

theorem run_transfer_count [Zero α] (cap : Nat) (calls : List (Call α)) (g : Globals α)
    (m : Int) (hT : ∀ c ∈ calls, c.isTransfer = true) :
    run cap { g with g_init_count := m } calls = { run cap g calls with g_init_count := m } := by
  induction calls generalizing g with
  | nil => rfl
  | cons c rest ih =>
      have h1 := hT c (List.mem_cons_self _ _)
      have h2 : ∀ c ∈ rest, c.isTransfer = true :=
        fun c hc => hT c (List.mem_cons_of_mem _ hc)
      show run cap (step cap { g with g_init_count := m } c) rest = _
      rw [step_transfer_count cap g c m h1, ih (step cap g c) h2]
      rfl

theorem run_transfer_frame [Zero α] (cap : Nat) (calls : List (Call α)) (g : Globals α)
    (hT : ∀ c ∈ calls, c.isTransfer = true) :
    (run cap g calls).g_active = g.g_active
      ∧ (run cap g calls).g_init_count = g.g_init_count
      ∧ (run cap g calls).g_audio_samples.isSome = g.g_audio_samples.isSome := by
  induction calls generalizing g with
  | nil => exact ⟨rfl, rfl, rfl⟩
  | cons c rest ih =>
      have h1 := step_transfer_frame cap g c (hT c (List.mem_cons_self _ _))
      have h2 := ih (step cap g c) (fun c hc => hT c (List.mem_cons_of_mem _ hc))
      exact ⟨h2.1.trans h1.1, h2.2.1.trans h1.2.1, h2.2.2.trans h1.2.2⟩

/-- On an active state with `n` attaches outstanding, a sequence of calls that
keeps at least one attach outstanding ends in the state its write, read and
available calls alone produce, with the init count moved by the attaches and
detaches. -/
theorem run_attached [Zero α] (cap : Nat) (calls : List (Call α)) (g : Globals α) (n : Int)
    (hact : g.g_active = true) (hn : g.g_init_count = n)
    (h : staysAttached n calls = true) :
    run cap g calls
      = { run cap g (calls.filter Call.isTransfer) with
          g_init_count := n + (countInit calls : Int) - (countCleanup calls : Int) } := by
  induction calls generalizing g n with
  | nil =>
      obtain ⟨s, w, r, a, ic⟩ := g
      simp only at hn
      subst hn
      simp [run, countInit, countCleanup]
  | cons c rest ih =>
      cases c with
      | init ok =>
          simp only [staysAttached, Bool.and_eq_true, decide_eq_true_eq] at h
          have h0 : g.g_init_count ≠ 0 := by omega
          have hstep : step cap g (.init ok) = { g with g_init_count := n + 1 } := by
            show (whisper_shared_init cap ok g).2 = _
            rw [init_attached cap ok g h0]
            obtain ⟨s, w, r, a, ic⟩ := g
            simp only at hn hact
            subst hn hact
            rfl
          show run cap (step cap g (.init ok)) rest = _
          rw [hstep, ih { g with g_init_count := n + 1 } (n + 1) hact rfl h.2,
            run_transfer_count cap _ g (n + 1) (by
              intro c hc; exact (List.mem_filter.mp hc).2)]
          simp only [List.filter, Call.isTransfer, countInit, countCleanup]
          congr 1
          push_cast
          omega
      | cleanup =>
          simp only [staysAttached, Bool.and_eq_true, decide_eq_true_eq] at h
          have h1 : 1 ≤ n - 1 := by
            cases rest with
            | nil => simpa [staysAttached] using h.2
            | cons c2 rest2 =>
                cases c2 <;>
                · simp only [staysAttached, Bool.and_eq_true, decide_eq_true_eq] at h
                  exact h.2.1
          have hstep : step cap g .cleanup = { g with g_init_count := n - 1 } := by
            simp only [step]
            rw [cleanup_other g (by omega), hn]
          show run cap (step cap g .cleanup) rest = _
          rw [hstep, ih { g with g_init_count := n - 1 } (n - 1) hact rfl h.2,
            run_transfer_count cap _ g (n - 1) (by
              intro c hc; exact (List.mem_filter.mp hc).2)]
          simp only [List.filter, Call.isTransfer, countInit, countCleanup]
          congr 1
          push_cast
          omega
      | write xs =>
          simp only [staysAttached, Bool.and_eq_true, decide_eq_true_eq] at h
          have hf := step_transfer_frame cap g (.write xs) rfl
          have := ih (step cap g (.write xs)) n (hf.1.trans hact) (hf.2.1.trans hn) h.2
          simpa [run, List.filter, Call.isTransfer, countInit, countCleanup] using this
      | read out k =>
          simp only [staysAttached, Bool.and_eq_true, decide_eq_true_eq] at h
          have hf := step_transfer_frame cap g (.read out k) rfl
          have := ih (step cap g (.read out k)) n (hf.1.trans hact) (hf.2.1.trans hn) h.2
          simpa [run, List.filter, Call.isTransfer, countInit, countCleanup] using this
      | available =>
          simp only [staysAttached, Bool.and_eq_true, decide_eq_true_eq] at h
          have := ih (step cap g .available) n hact hn h.2
          simpa [run, List.filter, Call.isTransfer, countInit, countCleanup] using this

end attach

/-! ### After the last detach, and before the first attach -/

section detached

variable {α : Type}

theorem run_inactive [Zero α] (cap : Nat) (calls : List (Call α)) (g : Globals α)
    (hact : g.g_active = false) (hT : ∀ c ∈ calls, c.isTransfer = true) :
    run cap g calls = g := by
  induction calls with
  | nil => rfl
  | cons c rest ih =>
      have h1 := hT c (List.mem_cons_self _ _)
      have hstep : step cap g c = g := by
        cases c with
        | init ok => exact absurd h1 (by simp [Call.isTransfer])
        | cleanup => exact absurd h1 (by simp [Call.isTransfer])
        | write xs => simp only [step, write_inactive cap g xs (Or.inl hact)]
        | read out n => simp only [step, read_inactive cap g out n (Or.inl hact)]
        | available => rfl
      show run cap (step cap g c) rest = g
      rw [hstep]
      exact ih (fun c hc => hT c (List.mem_cons_of_mem _ hc))

theorem available_inactive (cap : Nat) (g : Globals α) (hact : g.g_active = false) :
    whisper_shared_available cap g = 0 := by
  obtain ⟨s, w, r, a, c⟩ := g
  simp only at hact
  subst hact
  rfl

/-- A write, read or available call returns the same whatever the init
count. -/
theorem observe_transfer_count [Zero α] (cap : Nat) (g : Globals α) (c : Call α) (m : Int)
    (hT : c.isTransfer = true) :
    observe cap { g with g_init_count := m } c = observe cap g c := by
  obtain ⟨s, w, r, a, ic⟩ := g
  cases c with
  | init ok => exact absurd hT (by simp [Call.isTransfer])
  | cleanup => exact absurd hT (by simp [Call.isTransfer])
  | write xs => cases a <;> cases s <;> rfl
  | read out n =>
      cases a <;> cases s <;> try rfl
      simp only [observe, whisper_shared_read]
      split <;> rfl
  | available => cases a <;> cases s <;> rfl

/-- With no attach outstanding the storage pointer is `NULL`: every call keeps
this so. -/
theorem unattached_step [Zero α] (cap : Nat) (g : Globals α) (c : Call α)
    (h : g.g_init_count ≤ 0 → g.g_audio_samples = none) :
    (step cap g c).g_init_count ≤ 0 → (step cap g c).g_audio_samples = none := by
  cases c with
  | init ok =>
      by_cases h0 : g.g_init_count = 0
      · cases ok with
        | true =>
            simp only [step, init_first cap g h0]
            intro h2
            exact absurd h2 (by decide)
        | false =>
            simp only [step, init_first_failed cap g h0]
            intro _
            trivial
      · simp only [step, init_attached cap ok g h0]
        intro h2
        exact h (by omega)
  | cleanup =>
      by_cases h1 : g.g_init_count = 1
      · simp only [step, cleanup_last g h1]
        intro _
        trivial
      · simp only [step, cleanup_other g h1]
        intro h2
        exact h (by omega)
  | write xs =>
      have hf := step_transfer_frame cap g (.write xs) rfl
      intro h2
      rw [hf.2.1] at h2
      have hn := h h2
      simp only [step, write_inactive cap g xs (Or.inr hn)]
      exact hn
  | read out n =>
      have hf := step_transfer_frame cap g (.read out n) rfl
      intro h2
      rw [hf.2.1] at h2
      have hn := h h2
      simp only [step, read_inactive cap g out n (Or.inr hn)]
      exact hn
  | available => exact h

theorem unattached_run [Zero α] (cap : Nat) (calls : List (Call α)) (g : Globals α)
    (h : g.g_init_count ≤ 0 → g.g_audio_samples = none) :
    (run cap g calls).g_init_count ≤ 0 → (run cap g calls).g_audio_samples = none := by
  induction calls generalizing g with
  | nil => exact h
  | cons c rest ih => exact ih (step cap g c) (unattached_step cap g c h)

end detached

/-! ### Attach and detach on the struct-based ring -/

theorem set_same {β : Type} (l : List β) (i : Nat) (x : β) (h : l[i]? = some x) :
    l.set i x = l := by
  apply List.ext_getElem?
  intro j
  by_cases hij : i = j
  · subst hij
    rw [List.getElem?_set_self (List.getElem?_eq_some.mp h).1, h]
  · rw [List.getElem?_set_ne hij]

section lifetimeLemmas

variable {α : Type}

theorem ring_heap (s : Shared α) (ptr : Nat) (b : whisper_shared_buffer_t α)
    (h : s.ring ptr = some b) : s.heap[ptr]? = some (some b) := by
  unfold Shared.ring at h
  cases hp : s.heap[ptr]? with
  | none => rw [hp] at h; exact absurd h (by simp)
  | some x =>
      rw [hp] at h
      cases x with
      | none => exact absurd h (by simp)
      | some b2 =>
          have : b2 = b := by simpa using h
          rw [this]

theorem ring_lt (s : Shared α) (ptr : Nat) (b : whisper_shared_buffer_t α)
    (h : s.ring ptr = some b) : ptr < s.heap.length :=
  (List.getElem?_eq_some.mp (ring_heap s ptr b h)).1

theorem ring_set (heap : List (Option (whisper_shared_buffer_t α))) (ptr : Nat)
    (x : Option (whisper_shared_buffer_t α)) (v : Option Nat) (h : ptr < heap.length) :
    ({ heap := heap.set ptr x, var := v } : Shared α).ring ptr = x := by
  unfold Shared.ring
  show ((heap.set ptr x)[ptr]?).join = x
  rw [List.getElem?_set_self h]
  rfl

theorem get_buffer_registered [Zero α] (cap : Nat) (mb ms : Bool) (s : Shared α) (ptr : Nat)
    (b : whisper_shared_buffer_t α) (hv : s.var = some ptr) (hb : s.ring ptr = some b) :
    whisper_shared_get_buffer cap true mb ms s
      = (some ptr,
          { s with heap := s.heap.set ptr (some { b with ref_count := b.ref_count + 1 }) }) := by
  simp only [whisper_shared_get_buffer, hv, hb, Bool.not_true, Bool.false_eq_true, if_false]

theorem get_buffer_first [Zero α] (cap : Nat) (s : Shared α) (hv : s.var = none) :
    whisper_shared_get_buffer cap true true true s
      = (some s.heap.length,
          { heap := s.heap ++ [some { samples := List.replicate cap 0, write_pos := 0,
                                       read_pos := 0, active := true, ref_count := 1 }],
            var := some s.heap.length }) := by
  simp only [whisper_shared_get_buffer, hv, Bool.not_true, Bool.false_eq_true, if_false]

theorem get_buffer_failed [Zero α] (cap : Nat) (p mb ms : Bool) (s : Shared α)
    (hv : s.var = none) (hfail : mb = false ∨ ms = false) :
    whisper_shared_get_buffer cap p mb ms s = (none, s) := by
  unfold whisper_shared_get_buffer
  rw [hv]
  rcases hfail with h | h <;> subst h <;> cases p <;> simp

theorem release_other (p : Bool) (s : Shared α) (ptr : Nat) (b : whisper_shared_buffer_t α)
    (hb : s.ring ptr = some b) (h : b.ref_count ≠ 1) :
    whisper_shared_release_buffer p s (some ptr)
      = { s with heap := s.heap.set ptr (some { b with ref_count := b.ref_count - 1 }) } := by
  simp only [whisper_shared_release_buffer, hb, h, if_false]

theorem release_last (s : Shared α) (ptr : Nat) (b : whisper_shared_buffer_t α)
    (hb : s.ring ptr = some b) (h : b.ref_count = 1) :
    whisper_shared_release_buffer true s (some ptr)
      = { heap := s.heap.set ptr none, var := none } := by
  simp only [whisper_shared_release_buffer, hb, h, if_true]

theorem getBufferTimes_registered [Zero α] (cap K : Nat) (s : Shared α) (ptr : Nat)
    (b : whisper_shared_buffer_t α) (hv : s.var = some ptr) (hb : s.ring ptr = some b) :
    getBufferTimes cap K s
      = { s with heap := s.heap.set ptr (some { b with ref_count := b.ref_count + (K : Int) }) } := by
  induction K generalizing s b with
  | zero =>
      simp only [getBufferTimes, Nat.cast_zero, Int.add_zero]
      rw [set_same _ _ _ (ring_heap s ptr b hb)]
  | succ K ih =>
      have hlt := ring_lt s ptr b hb
      have hstep : (whisper_shared_get_buffer cap true true true s).2
          = { heap := s.heap.set ptr (some { b with ref_count := b.ref_count + 1 }),
              var := s.var } := by
        rw [get_buffer_registered cap true true s ptr b hv hb]
      show getBufferTimes cap K (whisper_shared_get_buffer cap true true true s).2 = _
      rw [hstep,
        ih { heap := s.heap.set ptr (some { b with ref_count := b.ref_count + 1 }),
             var := s.var }
          { b with ref_count := b.ref_count + 1 } hv (ring_set s.heap ptr _ s.var hlt)]
      simp only [List.set_set]
      congr 4
      push_cast
      omega

theorem releaseBufferTimes_above (K : Nat) (s : Shared α) (ptr : Nat)
    (b : whisper_shared_buffer_t α) (hb : s.ring ptr = some b) (h : (K : Int) < b.ref_count) :
    releaseBufferTimes K s (some ptr)
      = { s with heap := s.heap.set ptr (some { b with ref_count := b.ref_count - (K : Int) }) } := by
  induction K generalizing s b with
  | zero =>
      simp only [releaseBufferTimes, Nat.cast_zero, Int.sub_zero]
      rw [set_same _ _ _ (ring_heap s ptr b hb)]
  | succ K ih =>
      have hlt := ring_lt s ptr b hb
      have h2 : (K : Int) + 1 < b.ref_count := by push_cast at h; exact h
      show releaseBufferTimes K (whisper_shared_release_buffer true s (some ptr)) (some ptr) = _
      rw [release_other true s ptr b hb (by omega),
        ih { heap := s.heap.set ptr (some { b with ref_count := b.ref_count - 1 }),
             var := s.var }
          { b with ref_count := b.ref_count - 1 } (ring_set s.heap ptr _ s.var hlt)
          (by show (K : Int) < b.ref_count - 1; omega)]
      simp only [List.set_set]
      congr 4
      push_cast
      omega

/-- On a registered ring, `K` further attaches followed by `K` detaches give
the state back. -/
theorem release_after_get [Zero α] (cap K : Nat) (s : Shared α) (ptr : Nat)
    (b : whisper_shared_buffer_t α) (hv : s.var = some ptr) (hb : s.ring ptr = some b)
    (hcount : 1 ≤ b.ref_count) :
    releaseBufferTimes K (getBufferTimes cap K s) (some ptr) = s := by
  have hlt := ring_lt s ptr b hb
  rw [getBufferTimes_registered cap K s ptr b hv hb,
    releaseBufferTimes_above K
      { heap := s.heap.set ptr (some { b with ref_count := b.ref_count + (K : Int) }),
        var := s.var }
      ptr { b with ref_count := b.ref_count + (K : Int) }
      (ring_set s.heap ptr _ s.var hlt) (by show (K : Int) < b.ref_count + K; omega)]
  simp only [List.set_set]
  have : ({ b with ref_count := b.ref_count + (K : Int) - (K : Int) }
      : whisper_shared_buffer_t α) = b := by
    obtain ⟨sm, w, r, a, rc⟩ := b
    simp
  simp only [this]
  rw [set_same _ _ _ (ring_heap s ptr b hb)]

end lifetimeLemmas

/-! ### The available count after a write -/

theorem availableSamples_after_write (cap w r k : Nat) (hw : w < cap) (hr : r < cap) :
    availableSamples cap ((w + k) % cap) r = (availableSamples cap w r + k) % cap := by
  have hc : 0 < cap := by omega
  rw [availableSamples_eq_mod cap _ r (Nat.mod_lt _ hc) hr,
    availableSamples_eq_mod cap w r hw hr, Nat.mod_add_mod]
  have h1 : (w + k) % cap + cap - r = (w + k) % cap + (cap - r) := by omega
  rw [h1, Nat.mod_add_mod]
  congr 1
  omega

/-! ### The two implementations side by side -/

section sideBySide

variable {α : Type}

theorem write_buffer_active (cap : Nat) (b : whisper_shared_buffer_t α) (xs : List α)
    (hact : b.active = true) :
    whisper_shared_write_buffer cap (some b) xs
      = (0, some { b with samples := (writeLoop cap xs b.samples b.write_pos).1,
                          write_pos := (writeLoop cap xs b.samples b.write_pos).2 }) := by
  simp [whisper_shared_write_buffer, hact]

theorem write_buffer_inactive (cap : Nat) (b : whisper_shared_buffer_t α) (xs : List α)
    (hact : b.active = false) :
    whisper_shared_write_buffer cap (some b) xs = (-1, some b) := by
  simp [whisper_shared_write_buffer, hact]

theorem read_buffer_active [Zero α] (cap : Nat) (b : whisper_shared_buffer_t α)
    (out : List α) (n : Nat) (hact : b.active = true) :
    whisper_shared_read_buffer cap (some b) out n
      = if availableSamples cap b.write_pos b.read_pos < n then (-1, out, some b)
        else (0, readLoop cap b.samples b.read_pos n out,
              some { b with read_pos := (b.read_pos + n) % cap }) := by
  simp [whisper_shared_read_buffer, hact]

theorem read_buffer_inactive [Zero α] (cap : Nat) (b : whisper_shared_buffer_t α)
    (out : List α) (n : Nat) (hact : b.active = false) :
    whisper_shared_read_buffer cap (some b) out n = (-1, out, some b) := by
  simp [whisper_shared_read_buffer, hact]

theorem available_buffer_active (cap : Nat) (b : whisper_shared_buffer_t α)
    (hact : b.active = true) :
    whisper_shared_available_buffer cap (some b)
      = availableSamples cap b.write_pos b.read_pos := by
  simp [whisper_shared_available_buffer, hact]

theorem available_buffer_inactive (cap : Nat) (b : whisper_shared_buffer_t α)
    (hact : b.active = false) :
    whisper_shared_available_buffer cap (some b) = 0 := by
  simp [whisper_shared_available_buffer, hact]

theorem available_le (cap : Nat) (g : Globals α) (hw : g.g_write_pos < cap)
    (hr : g.g_read_pos < cap) : whisper_shared_available cap g < cap := by
  obtain ⟨s, w, r, a, c⟩ := g
  simp only at hw hr
  cases a <;> cases s <;>
    first
    | exact availableSamples_lt cap w r hw hr
    | (show 0 < cap; omega)

end sideBySide

/-! ### The life cycle of the globals -/

section lifecycle

variable {α : Type}

theorem lifecycle_initial : Lifecycle (Globals.initial : Globals α) 0 :=
  ⟨rfl, by simp [Globals.initial], by simp [Globals.initial]⟩

theorem lifecycle_init [Zero α] (cap : Nat) (ok : Bool) (g : Globals α) (n : Nat)
    (h : Lifecycle g n) :
    Lifecycle (whisper_shared_init cap ok g).2
      (if (whisper_shared_init cap ok g).1 = 0 then n + 1 else n) := by
  obtain ⟨hcount, hsome, hact⟩ := h
  by_cases h0 : n = 0
  · subst h0
    have hc0 : g.g_init_count = 0 := by simpa using hcount
    cases ok with
    | true =>
        rw [init_first cap g hc0]
        exact ⟨rfl, by simp, by simp⟩
    | false =>
        rw [init_first_failed cap g hc0]
        refine ⟨by simpa using hcount, by simp, ?_⟩
        simpa using hact
  · have hpos : 0 < n := Nat.pos_of_ne_zero h0
    rw [init_attached cap ok g (by omega)]
    refine ⟨?_, ?_, by simp⟩
    · show g.g_init_count + 1 = ((n + 1 : Nat) : Int)
      push_cast
      omega
    · have := hsome.mp hpos
      simpa using this

theorem lifecycle_cleanup (g : Globals α) (n : Nat) (h : Lifecycle g n) (hn : 1 ≤ n) :
    Lifecycle (whisper_shared_cleanup g) (n - 1) := by
  obtain ⟨hcount, hsome, hact⟩ := h
  by_cases h1 : n = 1
  · subst h1
    rw [cleanup_last g (by simpa using hcount)]
    exact ⟨rfl, by simp, by simp⟩
  · rw [cleanup_other g (by omega)]
    refine ⟨?_, ?_, ?_⟩
    · show g.g_init_count - 1 = ((n - 1 : Nat) : Int)
      omega
    · have := hsome.mp (by omega)
      constructor
      · intro _; exact this
      · intro _; omega
    · have := hact.mp (by omega)
      constructor
      · intro _; exact this
      · intro _; omega

theorem lifecycle_transfer [Zero α] (cap : Nat) (g : Globals α) (n : Nat) (c : Call α)
    (hT : c.isTransfer = true) (h : Lifecycle g n) : Lifecycle (step cap g c) n := by
  obtain ⟨hcount, hsome, hact⟩ := h
  have hf := step_transfer_frame cap g c hT
  exact ⟨hf.2.1.trans hcount, by rw [hf.2.2]; exact hsome, by rw [hf.1]; exact hact⟩

theorem lifecycle_run [Zero α] (cap : Nat) (calls : List (Call α)) (g : Globals α) (n : Nat)
    (h : Lifecycle g n) (hcov : cleanupsCovered cap n g calls = true) :
    ∃ m, Lifecycle (run cap g calls) m := by
  induction calls generalizing g n with
  | nil => exact ⟨n, h⟩
  | cons c rest ih =>
      cases c with
      | init ok =>
          simp only [cleanupsCovered] at hcov
          exact ih (step cap g (.init ok)) _ (lifecycle_init cap ok g n h) hcov
      | cleanup =>
          simp only [cleanupsCovered, Bool.and_eq_true, decide_eq_true_eq] at hcov
          exact ih (step cap g .cleanup) _ (lifecycle_cleanup g n h hcov.1) hcov.2
      | write xs =>
          simp only [cleanupsCovered] at hcov
          exact ih (step cap g (.write xs)) n (lifecycle_transfer cap g n _ rfl h) hcov
      | read out k =>
          simp only [cleanupsCovered] at hcov
          exact ih (step cap g (.read out k)) n (lifecycle_transfer cap g n _ rfl h) hcov
      | available =>
          simp only [cleanupsCovered] at hcov
          exact ih (step cap g .available) n (lifecycle_transfer cap g n _ rfl h) hcov

/-- Without a call of `whisper_shared_init`, an inactive ring stays
inactive. -/
theorem inactive_run [Zero α] (cap : Nat) (calls : List (Call α)) (g : Globals α)
    (hact : g.g_active = false) (hno : countInit calls = 0) :
    (run cap g calls).g_active = false := by
  induction calls generalizing g with
  | nil => exact hact
  | cons c rest ih =>
      cases c with
      | init ok => simp [countInit] at hno
      | cleanup =>
          apply ih (step cap g .cleanup) _ (by simpa [countInit] using hno)
          show (whisper_shared_cleanup g).g_active = false
          by_cases h1 : g.g_init_count = 1
          · rw [cleanup_last g h1]
          · rw [cleanup_other g h1]; exact hact
      | write xs =>
          apply ih (step cap g (.write xs)) _ (by simpa [countInit] using hno)
          exact (step_transfer_frame cap g (.write xs) rfl).1.trans hact
      | read out k =>
          apply ih (step cap g (.read out k)) _ (by simpa [countInit] using hno)
          exact (step_transfer_frame cap g (.read out k) rfl).1.trans hact
      | available =>
          exact ih (step cap g .available) hact (by simpa [countInit] using hno)

theorem init_success_active [Zero α] (cap : Nat) (ok : Bool) (g : Globals α)
    (h : (whisper_shared_init cap ok g).1 = 0) :
    (whisper_shared_init cap ok g).2.g_active = true := by
  by_cases h0 : g.g_init_count = 0
  · cases ok with
    | true => rw [init_first cap g h0]
    | false => rw [init_first_failed cap g h0] at h; exact absurd h (by simp)
  · rw [init_attached cap ok g h0]

/-- A freed block stays freed through every attach and detach. -/
theorem freed_step [Zero α] (cap : Nat) (s : Shared α) (ptr : Nat) (c : LifetimeCall)
    (hfreed : s.ring ptr = none) (hptr : ptr < s.heap.length) :
    (stepShared cap s c).ring ptr = none ∧ ptr < (stepShared cap s c).heap.length := by
  cases c with
  | get p mb ms =>
      simp only [stepShared, whisper_shared_get_buffer]
      cases p with
      | false => exact ⟨hfreed, hptr⟩
      | true =>
          simp only [Bool.not_true, Bool.false_eq_true, if_false]
          cases hv : s.var with
          | some q =>
              simp only
              cases hq : s.ring q with
              | none => exact ⟨hfreed, hptr⟩
              | some b =>
                  have hne : q ≠ ptr := by
                    intro h; rw [h, hfreed] at hq; exact absurd hq (by simp)
                  refine ⟨?_, by simpa using hptr⟩
                  show ((s.heap.set q _)[ptr]?).join = none
                  rw [List.getElem?_set_ne hne]
                  exact hfreed
          | none =>
              simp only
              cases mb with
              | false => exact ⟨hfreed, hptr⟩
              | true =>
                  cases ms with
                  | false => exact ⟨hfreed, hptr⟩
                  | true =>
                      simp only [Bool.not_true, Bool.false_eq_true, if_false]
                      refine ⟨?_, by simp; omega⟩
                      show ((s.heap ++ _)[ptr]?).join = none
                      rw [List.getElem?_append_left hptr]
                      exact hfreed
  | release p buffer =>
      simp only [stepShared, whisper_shared_release_buffer]
      cases buffer with
      | none => exact ⟨hfreed, hptr⟩
      | some q =>
          simp only
          cases hq : s.ring q with
          | none => exact ⟨hfreed, hptr⟩
          | some b =>
              have hne : q ≠ ptr := by
                intro h; rw [h, hfreed] at hq; exact absurd hq (by simp)
              simp only
              split
              · refine ⟨?_, by simpa using hptr⟩
                show ((s.heap.set q _)[ptr]?).join = none
                rw [List.getElem?_set_ne hne]
                exact hfreed
              · refine ⟨?_, by simpa using hptr⟩
                show ((s.heap.set q _)[ptr]?).join = none
                rw [List.getElem?_set_ne hne]
                exact hfreed

theorem freed_run [Zero α] (cap : Nat) (calls : List LifetimeCall) (s : Shared α) (ptr : Nat)
    (hfreed : s.ring ptr = none) (hptr : ptr < s.heap.length) :
    (runShared cap s calls).ring ptr = none ∧ ptr < (runShared cap s calls).heap.length := by
  induction calls generalizing s with
  | nil => exact ⟨hfreed, hptr⟩
  | cons c rest ih =>
      have h := freed_step cap s ptr c hfreed hptr
      exact ih (stepShared cap s c) h.1 h.2

end lifecycle

/-! ### The available count after a read -/

theorem write_pos_ahead (cap w r : Nat) (hw : w < cap) (hr : r < cap) :
    w = (r + availableSamples cap w r) % cap := by
  unfold availableSamples
  split
  · have : r + (w - r) = w := by omega
    rw [this, Nat.mod_eq_of_lt hw]
  · have : r + (cap - r + w) = w + cap := by omega
    rw [this, Nat.add_mod_right, Nat.mod_eq_of_lt hw]

theorem availableSamples_after_read (cap w r n : Nat) (hw : w < cap) (hr : r < cap)
    (hn : n ≤ availableSamples cap w r) :
    availableSamples cap w ((r + n) % cap) = availableSamples cap w r - n := by
  have hc : 0 < cap := by omega
  have hlt := availableSamples_lt cap w r hw hr
  have hpos : w = ((r + n) % cap + (availableSamples cap w r - n)) % cap := by
    rw [Nat.mod_add_mod]
    have : r + n + (availableSamples cap w r - n) = r + availableSamples cap w r := by omega
    rw [this]
    exact write_pos_ahead cap w r hw hr
  have h := availableSamples_ahead cap ((r + n) % cap) (availableSamples cap w r - n)
    (Nat.mod_lt _ hc) (by omega)
  rw [← hpos] at h
  exact h

/-! ### The length of the escaped text -/

theorem escapeLoop_length (text written : List Nat) :
    (escapeLoop text written).length
      = written.length + text.length + 3 * text.count SINGLE_QUOTE := by
  induction text generalizing written with
  | nil => simp [escapeLoop]
  | cons c rest ih =>
      by_cases hc : c = SINGLE_QUOTE
      · subst hc
        simp only [escapeLoop, if_true, ih, List.length_append, List.length_cons,
          List.length_nil, List.count_cons_self]
        omega
      · simp only [escapeLoop, hc, if_false, ih, List.length_append, List.length_cons,
          List.length_nil]
        rw [List.count_cons_of_ne (fun h => hc h.symm)]
        omega

/-! ## The claims -/

section claims

variable {α : Type}

/-- C1, as stated, fails when the sequence fills the ring: with capacity 10,
after writing the ten samples 1..10 to a fresh ring the write cursor is back on
the read cursor, and the read of 10 samples returns -1 and leaves the caller's
buffer as it was. -/
theorem roundtrip_fails_at_capacity :
    (whisper_shared_write 10 (freshRing 10) [1, 2, 3, 4, 5, 6, 7, 8, 9, (10 : Int)]).1 = 0
      ∧ whisper_shared_read 10
          (whisper_shared_write 10 (freshRing 10) [1, 2, 3, 4, 5, 6, 7, 8, 9, (10 : Int)]).2
          [0, 0, 0, 0, 0, 0, 0, 0, 0, 0] 10
        = (-1, [0, 0, 0, 0, 0, 0, 0, 0, 0, 0],
            (whisper_shared_write 10 (freshRing 10) [1, 2, 3, 4, 5, 6, 7, 8, 9, (10 : Int)]).2) := by
  decide

/-- C1 (amended): for a freshly created ring of capacity `cap` and a sample
sequence `s` of length N with N < cap, the write of `s` returns 0, the read of
N samples that follows returns 0, and the caller's buffer then holds `s`,
element for element and in order, in its first N slots (the slots after them
keep their values). -/
theorem roundtrip_below_capacity [Zero α] (cap : Nat) (s out : List α)
    (hN : s.length < cap) (hroom : s.length ≤ out.length) :
    (whisper_shared_write cap (freshRing cap) s).1 = 0
      ∧ (whisper_shared_read cap (whisper_shared_write cap (freshRing cap) s).2
          out s.length).1 = 0
      ∧ (whisper_shared_read cap (whisper_shared_write cap (freshRing cap) s).2
          out s.length).2.1 = s ++ out.drop s.length := by
  have h0 : Sim cap (freshRing cap : Globals α) [] := sim_fresh cap (by omega)
  have h1 := sim_write cap _ [] s h0 (by simpa using hN)
  rw [List.nil_append] at h1
  have h2 := sim_read_ok cap _ s out s.length h1.2 (Nat.le_refl _) hroom
  rw [List.take_length] at h2
  exact ⟨h1.1, h2.1, h2.2.1⟩

theorem roundtrip_below_capacity_witness :
    ([5, 6, 7] : List Int).length < 4 ∧ ([5, 6, 7] : List Int).length ≤ [0, 0, 0].length
      ∧ (whisper_shared_read 4 (whisper_shared_write 4 (freshRing 4) [5, 6, (7 : Int)]).2
          [0, 0, 0] 3).2.1 = [5, 6, 7] :=
  ⟨by decide, by decide,
    (roundtrip_below_capacity 4 [5, 6, (7 : Int)] [0, 0, 0] (by decide) (by decide)).2.2⟩

/-- C2: on an active ring, a read of more samples than
`whisper_shared_available` reports returns -1, hands the caller's buffer back
as it was and leaves the globals (both cursors and the storage among them) as
they were; in particular, after writing N samples (N < cap) to a freshly
created ring, the read of N + 1 samples fails in this way. -/
theorem read_insufficient_data [Zero α] (cap : Nat) (g : Globals α) (out : List α) (count : Nat)
    (s out2 : List α)
    (hact : g.g_active = true) (hcount : whisper_shared_available cap g < count)
    (hN : s.length < cap) :
    whisper_shared_read cap g out count = (-1, out, g)
      ∧ whisper_shared_read cap (whisper_shared_write cap (freshRing cap) s).2
          out2 (s.length + 1)
        = (-1, out2, (whisper_shared_write cap (freshRing cap) s).2) := by
  refine ⟨read_short cap g out count hact hcount, ?_⟩
  have h0 : Sim cap (freshRing cap : Globals α) [] := sim_fresh cap (by omega)
  have h1 := sim_write cap _ [] s h0 (by simpa using hN)
  rw [List.nil_append] at h1
  exact sim_read_fail cap _ s out2 _ h1.2 (Nat.lt_succ_self _)

theorem read_insufficient_data_witness :
    (⟨some [4, 5, 6], 2, 1, true, 1⟩ : Globals Int).g_active = true
      ∧ whisper_shared_available 3 (⟨some [4, 5, 6], 2, 1, true, 1⟩ : Globals Int) < 2
      ∧ ([8, 9] : List Int).length < 3
      ∧ whisper_shared_read 3 (⟨some [4, 5, 6], 2, 1, true, 1⟩ : Globals Int) [0, 0] 2
          = (-1, [0, 0], ⟨some [4, 5, 6], 2, 1, true, 1⟩)
      ∧ whisper_shared_read 3 (whisper_shared_write 3 (freshRing 3) [8, (9 : Int)]).2
          [0, 0, 0] (([8, 9] : List Int).length + 1)
        = (-1, [0, 0, 0], (whisper_shared_write 3 (freshRing 3) [8, (9 : Int)]).2) :=
  ⟨rfl, by decide, by decide,
    read_insufficient_data 3 ⟨some [4, 5, 6], 2, 1, true, 1⟩ [0, 0] 2 [8, 9] [0, 0, 0]
      rfl (by decide) (by decide)⟩

/-- C3, as stated, fails when the ring is filled: with capacity 10, two writes
of four and six samples give W = 10 written and R = 0 read, so R ≤ W ≤ 10, and
`whisper_shared_available` returns 0, not W - R = 10. -/
theorem available_wrong_when_full :
    samplesRead 10 (freshRing 10)
        [Call.write [1, 2, 3, (4 : Int)], Call.write [5, 6, 7, 8, 9, 10]]
      ≤ samplesWritten [Call.write [1, 2, 3, (4 : Int)], Call.write [5, 6, 7, 8, 9, 10]]
      ∧ samplesWritten [Call.write [1, 2, 3, (4 : Int)], Call.write [5, 6, 7, 8, 9, 10]] ≤ 10
      ∧ samplesWritten [Call.write [1, 2, 3, (4 : Int)], Call.write [5, 6, 7, 8, 9, 10]]
          - samplesRead 10 (freshRing 10)
              [Call.write [1, 2, 3, (4 : Int)], Call.write [5, 6, 7, 8, 9, 10]] = 10
      ∧ whisper_shared_available 10
          (run 10 (freshRing 10)
            [Call.write [1, 2, 3, (4 : Int)], Call.write [5, 6, 7, 8, 9, 10]]) = 0 := by
  decide

/-- C3 (amended): for every sequence of write, read and available calls on a
freshly created ring of capacity `cap`, with W the number of samples written in
total and R the number of samples the successful reads delivered in total,
R ≤ W holds and `whisper_shared_available` returns (W - R) mod cap: exactly
W - R whenever W - R < cap, and 0 when W - R = cap (which for W ≤ cap is the
case W = cap, R = 0). -/
theorem available_after_transfers [Zero α] (cap : Nat) (calls : List (Call α)) (hc : 0 < cap)
    (hT : ∀ c ∈ calls, c.isTransfer = true) :
    samplesRead cap (freshRing cap) calls ≤ samplesWritten calls
      ∧ whisper_shared_available cap (run cap (freshRing cap) calls)
          = (samplesWritten calls - samplesRead cap (freshRing cap) calls) % cap
      ∧ (samplesWritten calls - samplesRead cap (freshRing cap) calls < cap →
          whisper_shared_available cap (run cap (freshRing cap) calls)
            = samplesWritten calls - samplesRead cap (freshRing cap) calls)
      ∧ (samplesWritten calls - samplesRead cap (freshRing cap) calls = cap →
          whisper_shared_available cap (run cap (freshRing cap) calls) = 0) := by
  have h := counted_run cap calls (freshRing cap) 0 0 hc hT (counted_fresh cap)
  rw [Nat.zero_add, Nat.zero_add] at h
  have hav := counted_available cap _ _ _ hc h
  refine ⟨h.2.2.1, hav, fun hlt => ?_, fun heq => ?_⟩
  · rw [hav, Nat.mod_eq_of_lt hlt]
  · rw [hav, heq, Nat.mod_self]

theorem available_after_transfers_witness :
    0 < 4
      ∧ (∀ c ∈ [Call.write [1, 2, (3 : Int)], Call.read [0, 0] 2, Call.available,
            Call.write [4, 5]], c.isTransfer = true)
      ∧ whisper_shared_available 4
          (run 4 (freshRing 4)
            [Call.write [1, 2, (3 : Int)], Call.read [0, 0] 2, Call.available,
              Call.write [4, 5]]) = 3 :=
  ⟨by decide, by decide,
    (available_after_transfers 4
      [Call.write [1, 2, (3 : Int)], Call.read [0, 0] 2, Call.available, Call.write [4, 5]]
      (by decide) (by decide)).2.2.1 (by decide)⟩

/-- C4, as stated, fails on its own example: with capacity 10, after writing
1..10 to a fresh ring `whisper_shared_available` returns 0, not 10, and after
writing 11 and 12 as well it returns 2, not 10. -/
theorem available_not_capped_at_capacity :
    whisper_shared_available 10
        (whisper_shared_write 10 (freshRing 10) [1, 2, 3, 4, 5, 6, 7, 8, 9, (10 : Int)]).2 = 0
      ∧ whisper_shared_available 10
          (whisper_shared_write 10
            (whisper_shared_write 10 (freshRing 10) [1, 2, 3, 4, 5, 6, 7, 8, 9, (10 : Int)]).2
            [11, 12]).2 = 2 := by
  decide

/-- C4 (amended): on a freshly created ring of capacity `cap`, after writing
exactly `cap` samples `whisper_shared_available` returns 0 (the write cursor is
back on the read cursor), and after writing k further samples without reading
it returns k mod cap, a value below `cap`. -/
theorem available_after_filling [Zero α] (cap : Nat) (s t : List α) (hc : 0 < cap)
    (hs : s.length = cap) :
    whisper_shared_available cap (whisper_shared_write cap (freshRing cap) s).2 = 0
      ∧ whisper_shared_available cap
          (whisper_shared_write cap (whisper_shared_write cap (freshRing cap) s).2 t).2
          = t.length % cap
      ∧ whisper_shared_available cap
          (whisper_shared_write cap (whisper_shared_write cap (freshRing cap) s).2 t).2
          < cap := by
  have h1 := counted_write cap _ 0 0 s hc (counted_fresh cap)
  have h2 := counted_write cap _ _ _ t hc h1
  have e1 := counted_available cap _ _ _ hc h1
  have e2 := counted_available cap _ _ _ hc h2
  rw [hs] at e1 e2
  simp only [Nat.zero_add, Nat.sub_zero, Nat.mod_self, Nat.add_mod_left] at e1 e2
  exact ⟨e1, e2, by rw [e2]; exact Nat.mod_lt _ hc⟩

theorem available_after_filling_witness :
    0 < 3 ∧ ([1, 2, 3] : List Int).length = 3
      ∧ whisper_shared_available 3
          (whisper_shared_write 3 (whisper_shared_write 3 (freshRing 3) [1, 2, (3 : Int)]).2
            [4, 5, 6, 7]).2 = 1 :=
  ⟨by decide, rfl,
    (available_after_filling 3 [1, 2, (3 : Int)] [4, 5, 6, 7] (by decide) rfl).2.1⟩

/-- C5, as stated, fails on its own example: with capacity 10, after writing
1..12 to a fresh ring without reading, `whisper_shared_available` returns 2 and
the read of 10 samples returns -1 and hands the buffer back as it was, instead
of delivering 3..12. -/
theorem read_capacity_after_overflow_fails :
    whisper_shared_available 10
        (whisper_shared_write 10 (freshRing 10)
          [1, 2, 3, 4, 5, 6, 7, 8, 9, 10, 11, (12 : Int)]).2 = 2
      ∧ whisper_shared_read 10
          (whisper_shared_write 10 (freshRing 10)
            [1, 2, 3, 4, 5, 6, 7, 8, 9, 10, 11, (12 : Int)]).2
          [0, 0, 0, 0, 0, 0, 0, 0, 0, 0] 10
        = (-1, [0, 0, 0, 0, 0, 0, 0, 0, 0, 0],
            (whisper_shared_write 10 (freshRing 10)
              [1, 2, 3, 4, 5, 6, 7, 8, 9, 10, 11, (12 : Int)]).2) := by
  decide

/-- C5 (amended): on a freshly created ring of capacity `cap`, after writing
`cap + k` samples without reading, the storage holds the most recent `cap`
samples written (the older ones are overwritten) and
`whisper_shared_available` is k mod cap, so the read of `cap` samples fails and
copies nothing, while the read of k mod cap samples succeeds and returns the
most recent k mod cap samples written, in write order. -/
theorem overflow_keeps_recent [Zero α] (cap k : Nat) (s out out2 : List α) (hc : 0 < cap)
    (hs : s.length = cap + k) (hroom : k % cap ≤ out2.length) :
    (∃ buf, (whisper_shared_write cap (freshRing cap) s).2.g_audio_samples = some buf
        ∧ buf.length = cap ∧ ∀ j, k ≤ j → j < cap + k → buf[j % cap]? = s[j]?)
      ∧ whisper_shared_available cap (whisper_shared_write cap (freshRing cap) s).2
          = k % cap
      ∧ whisper_shared_read cap (whisper_shared_write cap (freshRing cap) s).2 out cap
          = (-1, out, (whisper_shared_write cap (freshRing cap) s).2)
      ∧ (whisper_shared_read cap (whisper_shared_write cap (freshRing cap) s).2
          out2 (k % cap)).1 = 0
      ∧ (whisper_shared_read cap (whisper_shared_write cap (freshRing cap) s).2
          out2 (k % cap)).2.1 = s.drop (cap + k - k % cap) ++ out2.drop (k % cap) := by
  have hm : k % cap < cap := Nat.mod_lt _ hc
  have hle : k % cap ≤ k := Nat.mod_le _ _
  have hsim := sim_after_overflow cap k s hc hs
  have hqlen : (s.drop (cap + k - k % cap)).length = k % cap := by
    rw [List.length_drop, hs]; omega
  have hav := sim_available cap _ _ hsim
  rw [hqlen] at hav
  have hread := sim_read_ok cap _ _ out2 (k % cap) hsim (by rw [hqlen]) hroom
  refine ⟨fresh_write_storage cap k s hc hs, hav, ?_, hread.1, ?_⟩
  · exact sim_read_fail cap _ _ out cap hsim (by rw [hqlen]; exact hm)
  · rw [hread.2.1, List.take_of_length_le (by rw [hqlen])]

theorem overflow_keeps_recent_witness :
    0 < 10 ∧ ([1, 2, 3, 4, 5, 6, 7, 8, 9, 10, 11, 12] : List Int).length = 10 + 2
      ∧ 2 % 10 ≤ ([0, 0] : List Int).length
      ∧ (whisper_shared_read 10
          (whisper_shared_write 10 (freshRing 10)
            [1, 2, 3, 4, 5, 6, 7, 8, 9, 10, 11, (12 : Int)]).2 [0, 0] 2).2.1 = [11, 12] :=
  ⟨by decide, rfl, by decide,
    (overflow_keeps_recent 10 2 [1, 2, 3, 4, 5, 6, 7, 8, 9, 10, 11, (12 : Int)]
      [] [0, 0] (by decide) rfl (by decide)).2.2.2.2⟩

/-- C6: for every sequence of write, read and available calls on a freshly
created ring of capacity `cap` during which the number of unread samples stays
below `cap`, the ring shows its caller exactly what the unbounded FIFO queue
shows: every write returns 0, a read of n samples returns 0 exactly when the
queue holds at least n samples and then hands back the n oldest queued samples
in write order (and otherwise returns -1 and hands the buffer back unchanged),
and `whisper_shared_available` equals the queue length after every call. -/
theorem ring_refines_fifo [Zero α] (cap : Nat) (calls : List (Call α))
    (hT : ∀ c ∈ calls, c.isTransfer = true) (hroom : ∀ c ∈ calls, c.roomy = true)
    (hbelow : fifoBelow cap ([] : List α) calls = true) :
    ringTrace cap (freshRing cap) calls = fifoTrace [] calls :=
  trace_of_sim cap calls (freshRing cap) []
    (sim_fresh cap (by have := fifoBelow_head cap _ calls hbelow; simpa using this))
    hT hroom hbelow

theorem ring_refines_fifo_witness :
    (∀ c ∈ [Call.write [1, 2, (3 : Int)], Call.read [0, 0] 2, Call.available,
          Call.write [4, 5], Call.read [0, 0, 0, 0] 4, Call.read [0, 0, 0] 3],
        c.isTransfer = true)
      ∧ (∀ c ∈ [Call.write [1, 2, (3 : Int)], Call.read [0, 0] 2, Call.available,
          Call.write [4, 5], Call.read [0, 0, 0, 0] 4, Call.read [0, 0, 0] 3],
        c.roomy = true)
      ∧ fifoBelow 4 ([] : List Int)
          [Call.write [1, 2, (3 : Int)], Call.read [0, 0] 2, Call.available,
            Call.write [4, 5], Call.read [0, 0, 0, 0] 4, Call.read [0, 0, 0] 3] = true
      ∧ ringTrace 4 (freshRing 4)
          [Call.write [1, 2, (3 : Int)], Call.read [0, 0] 2, Call.available,
            Call.write [4, 5], Call.read [0, 0, 0, 0] 4, Call.read [0, 0, 0] 3]
        = [(0, [], 3), (0, [1, 2], 1), (0, [], 1), (0, [], 3), (-1, [0, 0, 0, 0], 3),
            (0, [3, 4, 5], 0)] :=
  ⟨by decide, by decide, by decide,
    ring_refines_fifo 4
      [Call.write [1, 2, (3 : Int)], Call.read [0, 0] 2, Call.available,
        Call.write [4, 5], Call.read [0, 0, 0, 0] 4, Call.read [0, 0, 0] 3]
      (by decide) (by decide) (by decide)⟩

/-- C7: on an active ring whose storage has `cap` slots and whose write cursor
w is below `cap`, a write of `count` samples returns 0, sets the write cursor
to (w + count) mod cap, leaves the read cursor, the active flag and the init
count as they were, and leaves every slot p holding samples[i] for the largest
i < count with (w + i) mod cap = p, or its previous value when there is no such
i. -/
theorem write_effect (cap : Nat) (g : Globals α) (buf samples : List α)
    (hact : g.g_active = true) (hbuf : g.g_audio_samples = some buf)
    (hlen : buf.length = cap) (hw : g.g_write_pos < cap) :
    ∃ buf2, whisper_shared_write cap g samples
        = (0, { g with g_audio_samples := some buf2,
                       g_write_pos := (g.g_write_pos + samples.length) % cap })
      ∧ buf2.length = cap
      ∧ ∀ p, p < cap →
          (∀ i, i < samples.length → (g.g_write_pos + i) % cap = p →
              (∀ j, i < j → j < samples.length → (g.g_write_pos + j) % cap ≠ p) →
              buf2[p]? = samples[i]?)
          ∧ ((∀ i, i < samples.length → (g.g_write_pos + i) % cap ≠ p) →
              buf2[p]? = buf[p]?) := by
  refine ⟨(writeLoop cap samples buf g.g_write_pos).1, ?_, ?_, fun p _ => ⟨?_, ?_⟩⟩
  · rw [write_active cap g buf samples hact hbuf, writeLoop_pos cap samples buf _ hw]
  · rw [writeLoop_length, hlen]
  · intro i hi hp hlast
    subst hp
    exact writeLoop_slot_last cap samples buf _ i hw hlen hi hlast
  · intro hnone
    exact writeLoop_slot_untouched cap samples buf _ p hw hnone

theorem write_effect_witness :
    (⟨some [0, 0, 0], 2, 1, true, 1⟩ : Globals Int).g_active = true
      ∧ (⟨some [0, 0, 0], 2, 1, true, 1⟩ : Globals Int).g_audio_samples = some [0, 0, 0]
      ∧ ([0, 0, 0] : List Int).length = 3
      ∧ (⟨some [0, 0, 0], 2, 1, true, 1⟩ : Globals Int).g_write_pos < 3
      ∧ ∃ buf2, whisper_shared_write 3 (⟨some [0, 0, 0], 2, 1, true, 1⟩ : Globals Int)
            [5, 6, 7, 8]
          = (0, ⟨some buf2, 0, 1, true, 1⟩) ∧ buf2[2]? = some 8 ∧ buf2[1]? = some 7 :=
  ⟨rfl, rfl, rfl, by decide,
    (write_effect 3 (⟨some [0, 0, 0], 2, 1, true, 1⟩ : Globals Int) [0, 0, 0] [5, 6, 7, 8]
      rfl rfl rfl (by decide)).imp fun _ h =>
        ⟨h.1, (h.2.2 2 (by decide)).1 3 (by decide) (by decide)
            (fun j h1 h2 => absurd h2 (by simp; omega)),
          (h.2.2 1 (by decide)).1 2 (by decide) (by decide)
            (fun j h1 h2 => by
              have h3 : j < 4 := h2
              have : j = 3 := by omega
              subst this; decide)⟩⟩

/-- C8: on an active ring whose storage has `cap` slots, with read cursor r, a
read of `count` samples with `count` at most `whisper_shared_available` returns
0, sets out[i] = storage[(r + i) mod cap] for every i < count (the later slots
of the caller's buffer keep their values), sets the read cursor to
(r + count) mod cap, and leaves the storage, the write cursor, the active flag
and the init count as they were. -/
theorem read_effect [Zero α] (cap : Nat) (g : Globals α) (buf out : List α) (count : Nat)
    (hact : g.g_active = true) (hbuf : g.g_audio_samples = some buf)
    (hlen : buf.length = cap) (hc : 0 < cap)
    (hcount : count ≤ whisper_shared_available cap g) (hroom : count ≤ out.length) :
    ∃ out2, whisper_shared_read cap g out count
        = (0, out2, { g with g_read_pos := (g.g_read_pos + count) % cap })
      ∧ out2.length = out.length
      ∧ (∀ i, i < count → out2[i]? = buf[(g.g_read_pos + i) % cap]?)
      ∧ (∀ i, count ≤ i → out2[i]? = out[i]?) := by
  rw [available_active cap g buf hact hbuf] at hcount
  refine ⟨readLoop cap buf g.g_read_pos count out, ?_, readLoop_length _ _ _ _ _, ?_, ?_⟩
  · rw [read_active cap g buf out count hact hbuf, if_neg (Nat.not_lt.mpr hcount)]
  · intro i hi
    have hslot : (g.g_read_pos + i) % cap < buf.length := by
      rw [hlen]; exact Nat.mod_lt _ hc
    rw [readLoop_getElem?, if_pos ⟨hi, by omega⟩, List.getD_eq_getElem?_getD,
      List.getElem?_eq_getElem hslot]
    rfl
  · intro i hi
    rw [readLoop_getElem?, if_neg (by omega)]

theorem read_effect_witness :
    (⟨some [4, 5, 6], 1, 2, true, 1⟩ : Globals Int).g_active = true
      ∧ (⟨some [4, 5, 6], 1, 2, true, 1⟩ : Globals Int).g_audio_samples = some [4, 5, 6]
      ∧ ([4, 5, 6] : List Int).length = 3 ∧ 0 < 3
      ∧ 2 ≤ whisper_shared_available 3 (⟨some [4, 5, 6], 1, 2, true, 1⟩ : Globals Int)
      ∧ 2 ≤ ([0, 0, 9] : List Int).length
      ∧ ∃ out2, whisper_shared_read 3 (⟨some [4, 5, 6], 1, 2, true, 1⟩ : Globals Int)
            [0, 0, 9] 2
          = (0, out2, ⟨some [4, 5, 6], 1, 1, true, 1⟩)
        ∧ out2[0]? = some 6 ∧ out2[1]? = some 4 ∧ out2[2]? = some 9 :=
  ⟨rfl, rfl, rfl, by decide, by decide, by decide,
    (read_effect 3 (⟨some [4, 5, 6], 1, 2, true, 1⟩ : Globals Int) [4, 5, 6] [0, 0, 9] 2
      rfl rfl rfl (by decide) (by decide) (by decide)).imp fun _ h =>
        ⟨h.1, h.2.2.1 0 (by decide), h.2.2.1 1 (by decide), h.2.2.2 2 (by decide)⟩⟩

/-- C9: a write fails if and only if the ring is inactive.  For the ring in
the globals, with its storage allocated, and for every struct-based ring:
the write returns 0 exactly when the active flag is true, whatever the samples
and however many samples are unread, and returns -1 exactly when the flag is
false; in that case the whole state, storage and cursors included, is
unchanged. -/
theorem write_fails_iff_inactive (cap : Nat) (g : Globals α) (buf samples : List α)
    (b : whisper_shared_buffer_t α) (hbuf : g.g_audio_samples = some buf) :
    ((whisper_shared_write cap g samples).1 = 0 ↔ g.g_active = true)
      ∧ ((whisper_shared_write cap g samples).1 = -1 ↔ g.g_active = false)
      ∧ (g.g_active = false → (whisper_shared_write cap g samples).2 = g)
      ∧ ((whisper_shared_write_buffer cap (some b) samples).1 = 0 ↔ b.active = true)
      ∧ ((whisper_shared_write_buffer cap (some b) samples).1 = -1 ↔ b.active = false)
      ∧ (b.active = false → (whisper_shared_write_buffer cap (some b) samples).2 = some b) := by
  refine ⟨?_, ?_, ?_, ?_, ?_, ?_⟩
  · cases hact : g.g_active with
    | true => rw [write_active cap g buf samples hact hbuf]; simp
    | false => rw [write_inactive cap g samples (Or.inl hact)]; simp
  · cases hact : g.g_active with
    | true => rw [write_active cap g buf samples hact hbuf]; simp
    | false => rw [write_inactive cap g samples (Or.inl hact)]; simp
  · intro hact
    rw [write_inactive cap g samples (Or.inl hact)]
  · cases hact : b.active <;> simp [whisper_shared_write_buffer, hact]
  · cases hact : b.active <;> simp [whisper_shared_write_buffer, hact]
  · intro hact
    simp [whisper_shared_write_buffer, hact]

theorem write_fails_iff_inactive_witness :
    (⟨some [1, 2, 3], 1, 2, false, 0⟩ : Globals Int).g_audio_samples = some [1, 2, 3]
      ∧ (whisper_shared_write 3 (⟨some [1, 2, 3], 1, 2, false, 0⟩ : Globals Int) [7, 8]).1 = -1 :=
  ⟨rfl,
    (write_fails_iff_inactive 3 (⟨some [1, 2, 3], 1, 2, false, 0⟩ : Globals Int) [1, 2, 3]
      [7, 8] ⟨[0, 0, 0], 0, 0, true, 1⟩ rfl).2.1.mpr rfl⟩

/-- C10: in every state reached from a freshly created ring of capacity `cap`
by any sequence of init (attach), cleanup (detach), write, read and available
calls, with any arguments, the write cursor and the read cursor are below
`cap` and the storage, whenever it is allocated, has exactly `cap` slots; and
as long as the sequence has no cleanup call the storage is allocated. -/
theorem cursors_stay_in_range [Zero α] (cap : Nat) (calls : List (Call α)) (hc : 0 < cap) :
    (run cap (freshRing cap) calls).g_write_pos < cap
      ∧ (run cap (freshRing cap) calls).g_read_pos < cap
      ∧ (∀ buf, (run cap (freshRing cap) calls).g_audio_samples = some buf →
          buf.length = cap)
      ∧ ((∀ c ∈ calls, c ≠ .cleanup) →
          ∃ buf, (run cap (freshRing cap) calls).g_audio_samples = some buf
            ∧ buf.length = cap) := by
  have h := wellFormed_run cap calls (freshRing cap) hc (wellFormed_fresh cap hc)
  refine ⟨h.1, h.2.1, h.2.2, fun hne => ?_⟩
  have ha := alive_run cap calls (freshRing cap) hne ⟨Int.le_refl 1, rfl⟩
  obtain ⟨buf, hbuf⟩ := Option.isSome_iff_exists.mp ha.2
  exact ⟨buf, hbuf, h.2.2 buf hbuf⟩

theorem cursors_stay_in_range_witness :
    0 < 3
      ∧ (run 3 (freshRing 3)
          [Call.write [1, 2, 3, 4, (5 : Int)], Call.read [0, 0] 2, Call.init true,
            Call.cleanup, Call.write [6, 7, 8, 9], Call.available]).g_write_pos < 3 :=
  ⟨by decide,
    (cursors_stay_in_range 3
      [Call.write [1, 2, 3, 4, (5 : Int)], Call.read [0, 0] 2, Call.init true,
        Call.cleanup, Call.write [6, 7, 8, 9], Call.available] (by decide)).1⟩

/-- C11: for an active ring with allocated storage whose cursors are below
`cap`, `whisper_shared_available` returns (write_pos - read_pos) mod cap, the
call leaves the globals as they are, and `whisper_shared_read` checks its
count against the same number: it returns 0 exactly when the count is at most
that number and -1 exactly when the count exceeds it.  The same holds for the
struct-based `whisper_shared_available_buffer` and
`whisper_shared_read_buffer`. -/
theorem available_is_modular_difference [Zero α] (cap : Nat) (g : Globals α)
    (buf out : List α) (count : Nat) (b : whisper_shared_buffer_t α)
    (hact : g.g_active = true) (hbuf : g.g_audio_samples = some buf)
    (hw : g.g_write_pos < cap) (hr : g.g_read_pos < cap)
    (hbact : b.active = true) (hbw : b.write_pos < cap) (hbr : b.read_pos < cap) :
    (whisper_shared_available cap g : Int)
        = ((g.g_write_pos : Int) - (g.g_read_pos : Int)) % (cap : Int)
      ∧ step cap g .available = g
      ∧ ((whisper_shared_read cap g out count).1 = 0
          ↔ count ≤ whisper_shared_available cap g)
      ∧ ((whisper_shared_read cap g out count).1 = -1
          ↔ whisper_shared_available cap g < count)
      ∧ (whisper_shared_available_buffer cap (some b) : Int)
          = ((b.write_pos : Int) - (b.read_pos : Int)) % (cap : Int)
      ∧ ((whisper_shared_read_buffer cap (some b) out count).1 = 0
          ↔ count ≤ whisper_shared_available_buffer cap (some b)) := by
  have hcode := read_code_zero_iff cap g buf out count hact hbuf
  refine ⟨?_, rfl, hcode.1, hcode.2, ?_, ?_⟩
  · rw [available_active cap g buf hact hbuf]
    exact availableSamples_int cap _ _ hw hr
  · simp only [whisper_shared_available_buffer, hbact, Bool.not_true, Bool.false_eq_true,
      if_false]
    exact availableSamples_int cap _ _ hbw hbr
  · simp only [whisper_shared_read_buffer, whisper_shared_available_buffer, hbact,
      Bool.not_true, Bool.false_eq_true, if_false]
    by_cases h : availableSamples cap b.write_pos b.read_pos < count
    · rw [if_pos h]
      exact ⟨fun h2 => absurd h2 (by simp), fun h2 => absurd h (by omega)⟩
    · rw [if_neg h]
      exact ⟨fun _ => by omega, fun _ => rfl⟩

theorem available_is_modular_difference_witness :
    (⟨some [4, 5, 6], 1, 2, true, 1⟩ : Globals Int).g_active = true
      ∧ (⟨some [4, 5, 6], 1, 2, true, 1⟩ : Globals Int).g_audio_samples = some [4, 5, 6]
      ∧ (⟨some [4, 5, 6], 1, 2, true, 1⟩ : Globals Int).g_write_pos < 3
      ∧ (⟨some [4, 5, 6], 1, 2, true, 1⟩ : Globals Int).g_read_pos < 3
      ∧ (⟨[4, 5, 6], 0, 1, true, 2⟩ : whisper_shared_buffer_t Int).active = true
      ∧ (⟨[4, 5, 6], 0, 1, true, 2⟩ : whisper_shared_buffer_t Int).write_pos < 3
      ∧ (⟨[4, 5, 6], 0, 1, true, 2⟩ : whisper_shared_buffer_t Int).read_pos < 3
      ∧ (whisper_shared_available 3 (⟨some [4, 5, 6], 1, 2, true, 1⟩ : Globals Int) : Int)
          = ((1 : Nat) - (2 : Nat) : Int) % (3 : Nat) :=
  ⟨rfl, rfl, by decide, by decide, rfl, by decide, by decide,
    (available_is_modular_difference 3 (⟨some [4, 5, 6], 1, 2, true, 1⟩ : Globals Int)
      [4, 5, 6] [0, 0] 2 ⟨[4, 5, 6], 0, 1, true, 2⟩
      rfl rfl (by decide) (by decide) rfl (by decide) (by decide)).1⟩

/-- C12: on a freshly created ring of capacity `cap` with cap ≥ 7, after writing
cap - 1 samples, reading cap - 2 of them (the read succeeds) and writing 5 more
samples, the write cursor has passed the end of the storage and stands at 4,
`whisper_shared_available` is 6, and the read of 6 samples returns 0 and hands
back the last sample of the first write followed by the 5 new samples, in
order. -/
theorem wraparound_read [Zero α] (cap : Nat) (s1 s2 out1 out2 : List α) (hcap : 7 ≤ cap)
    (h1 : s1.length = cap - 1) (h2 : s2.length = 5)
    (hroom1 : cap - 2 ≤ out1.length) (hroom2 : 6 ≤ out2.length) :
    (whisper_shared_read cap (run cap (freshRing cap) [.write s1]) out1 (cap - 2)).1 = 0
      ∧ (run cap (freshRing cap) [.write s1, .read out1 (cap - 2), .write s2]).g_write_pos = 4
      ∧ whisper_shared_available cap
          (run cap (freshRing cap) [.write s1, .read out1 (cap - 2), .write s2]) = 6
      ∧ (whisper_shared_read cap
          (run cap (freshRing cap) [.write s1, .read out1 (cap - 2), .write s2]) out2 6).1 = 0
      ∧ (whisper_shared_read cap
          (run cap (freshRing cap) [.write s1, .read out1 (cap - 2), .write s2]) out2 6).2.1
          = s1.drop (cap - 2) ++ s2 ++ out2.drop 6 := by
  have hc : 0 < cap := by omega
  have hrun1 : run cap (freshRing cap) [Call.write s1]
      = (whisper_shared_write cap (freshRing cap) s1).2 := rfl
  have hrun3 : run cap (freshRing cap) [.write s1, .read out1 (cap - 2), .write s2]
      = (whisper_shared_write cap
          (whisper_shared_read cap (whisper_shared_write cap (freshRing cap) s1).2
            out1 (cap - 2)).2.2 s2).2 := rfl
  rw [hrun1, hrun3]
  have a0 : Sim cap (freshRing cap : Globals α) [] := sim_fresh cap hc
  have a1 := sim_write cap _ [] s1 a0 (by simp; omega)
  rw [List.nil_append] at a1
  have a2 := sim_read_ok cap _ s1 out1 (cap - 2) a1.2 (by omega) hroom1
  have a3 := sim_write cap _ _ s2 a2.2.2 (by rw [List.length_drop]; omega)
  have hq : (s1.drop (cap - 2) ++ s2).length = 6 := by
    rw [List.length_append, List.length_drop]; omega
  have a4 := sim_read_ok cap _ _ out2 6 a3.2 (by omega) hroom2
  have hav := sim_available cap _ _ a3.2
  have c1 := counted_write cap _ 0 0 s1 hc (counted_fresh cap)
  have c2 := counted_read cap _ _ _ out1 (cap - 2) hc c1
  rw [a2.1] at c2
  have c3 := counted_write cap _ _ _ s2 hc c2
  refine ⟨a2.1, ?_, by rw [hav, hq], a4.1, ?_⟩
  · rw [c3.2.2.2.1, h1, h2]
    have : 0 + (cap - 1) + 0 + 5 = 4 + cap := by omega
    rw [this, Nat.add_mod_right, Nat.mod_eq_of_lt (by omega)]
  · rw [a4.2.1, List.take_of_length_le (by omega)]

theorem wraparound_read_witness :
    7 ≤ 7 ∧ ([1, 2, 3, 4, 5, 6] : List Int).length = 7 - 1
      ∧ ([7, 8, 9, 10, 11] : List Int).length = 5
      ∧ 7 - 2 ≤ ([0, 0, 0, 0, 0] : List Int).length
      ∧ 6 ≤ ([0, 0, 0, 0, 0, 0] : List Int).length
      ∧ (whisper_shared_read 7
          (run 7 (freshRing 7)
            [.write [1, 2, 3, 4, 5, (6 : Int)], .read [0, 0, 0, 0, 0] (7 - 2),
              .write [7, 8, 9, 10, 11]]) [0, 0, 0, 0, 0, 0] 6).2.1
          = [6, 7, 8, 9, 10, 11] :=
  ⟨by decide, rfl, rfl, by decide, by decide,
    (wraparound_read 7 [1, 2, 3, 4, 5, (6 : Int)] [7, 8, 9, 10, 11] [0, 0, 0, 0, 0]
      [0, 0, 0, 0, 0, 0] (by decide) rfl rfl (by decide) (by decide)).2.2.2.2⟩

/-- C13, as stated, fails for N = capacity - 1: with capacity 3, after writing
two samples to a fresh ring the read of 3 samples fails, and after writing one
more sample the write cursor is back on the read cursor, so the retried read of
3 samples returns -1 again and hands the buffer back as it was. -/
theorem retry_fails_when_ring_fills :
    (2 : Nat) < 3
      ∧ (whisper_shared_read 3 (run 3 (freshRing 3) [.write [1, (2 : Int)]]) [0, 0, 0] 3).1 = -1
      ∧ whisper_shared_read 3
          (run 3 (freshRing 3) [.write [1, (2 : Int)], .read [0, 0, 0] 3, .write [3]])
          [0, 0, 0] 3
        = (-1, [0, 0, 0],
            run 3 (freshRing 3) [.write [1, (2 : Int)], .read [0, 0, 0] 3, .write [3]]) := by
  decide

/-- C13 (amended): for every N with N + 1 < capacity, on a freshly created
ring, after writing N samples the read of N + 1 samples fails and changes
nothing, and after writing 1 more sample the retried read of N + 1 samples
returns 0 and hands back the N + 1 written samples in order. -/
theorem retry_after_insufficient_data [Zero α] (cap : Nat) (s out : List α) (x : α)
    (hN : s.length + 1 < cap) (hroom : s.length + 1 ≤ out.length) :
    whisper_shared_read cap (run cap (freshRing cap) [.write s]) out (s.length + 1)
        = (-1, out, run cap (freshRing cap) [.write s])
      ∧ (whisper_shared_read cap
          (run cap (freshRing cap) [.write s, .read out (s.length + 1), .write [x]])
          out (s.length + 1)).1 = 0
      ∧ (whisper_shared_read cap
          (run cap (freshRing cap) [.write s, .read out (s.length + 1), .write [x]])
          out (s.length + 1)).2.1 = s ++ [x] ++ out.drop (s.length + 1) := by
  have hc : 0 < cap := by omega
  have a0 : Sim cap (freshRing cap : Globals α) [] := sim_fresh cap hc
  have a1 := sim_write cap _ [] s a0 (by simp; omega)
  rw [List.nil_append] at a1
  have a2 := sim_read_fail cap _ s out (s.length + 1) a1.2 (Nat.lt_succ_self _)
  have hrun1 : run cap (freshRing cap) [Call.write s]
      = (whisper_shared_write cap (freshRing cap) s).2 := rfl
  have hrun3 : run cap (freshRing cap) [.write s, .read out (s.length + 1), .write [x]]
      = (whisper_shared_write cap
          (whisper_shared_read cap (whisper_shared_write cap (freshRing cap) s).2
            out (s.length + 1)).2.2 [x]).2 := rfl
  rw [hrun1, hrun3, a2]
  have a3 := sim_write cap _ s [x] a1.2 (by simpa using hN)
  have a4 := sim_read_ok cap _ (s ++ [x]) out (s.length + 1) a3.2 (by simp) hroom
  refine ⟨rfl, a4.1, ?_⟩
  rw [a4.2.1, List.take_of_length_le (by simp)]

theorem retry_after_insufficient_data_witness :
    ([1, 2] : List Int).length + 1 < 4 ∧ ([1, 2] : List Int).length + 1 ≤ [0, 0, (0 : Int)].length
      ∧ (whisper_shared_read 4
          (run 4 (freshRing 4)
            [.write [1, (2 : Int)], .read [0, 0, 0] (([1, 2] : List Int).length + 1),
              .write [3]])
          [0, 0, 0] (([1, 2] : List Int).length + 1)).2.1 = [1, 2, 3] :=
  ⟨by decide, by decide,
    (retry_after_insufficient_data 4 [1, (2 : Int)] [0, 0, 0] 3 (by decide) (by decide)).2.2⟩

/-- C14: on a freshly created ring (one attach done), every sequence of
further attaches, detaches, writes, reads and available calls that keeps at
least one attach outstanding ends in the state that its writes and reads alone
produce, except for the init count, which is 1 plus the attaches minus the
detaches; so after K attaches and K - 1 detaches the count is 1, the ring is
active, its storage is allocated, a write returns 0 and every following
write, read or available call returns what it returns on the ring that saw only
the writes and reads.  A detach that leaves the count above zero changes
nothing but the count.  For the struct-based ring: on a registered ring with
reference count 1, K - 1 further attaches followed by K - 1 detaches give the
state back, and a release that finds a count other than 1 changes only the
count. -/
theorem attached_ring_survives [Zero α] (cap : Nat) (calls : List (Call α)) (xs : List α)
    (hstay : staysAttached 1 calls = true) :
    run cap (freshRing cap) calls
        = { run cap (freshRing cap) (calls.filter Call.isTransfer) with
            g_init_count := 1 + (countInit calls : Int) - (countCleanup calls : Int) }
      ∧ (countInit calls = countCleanup calls →
          (run cap (freshRing cap) calls).g_init_count = 1)
      ∧ (run cap (freshRing cap) calls).g_active = true
      ∧ (run cap (freshRing cap) calls).g_audio_samples.isSome = true
      ∧ (whisper_shared_write cap (run cap (freshRing cap) calls) xs).1 = 0
      ∧ (∀ c : Call α, c.isTransfer = true →
          observe cap (run cap (freshRing cap) calls) c
            = observe cap (run cap (freshRing cap) (calls.filter Call.isTransfer)) c)
      ∧ (∀ g : Globals α, g.g_init_count ≠ 1 →
          whisper_shared_cleanup g = { g with g_init_count := g.g_init_count - 1 })
      ∧ (∀ (K : Nat) (s : Shared α) (ptr : Nat) (b : whisper_shared_buffer_t α),
          s.var = some ptr → s.ring ptr = some b → b.ref_count = 1 →
          releaseBufferTimes K (getBufferTimes cap K s) (some ptr) = s)
      ∧ (∀ (p : Bool) (s : Shared α) (ptr : Nat) (b : whisper_shared_buffer_t α),
          s.ring ptr = some b → b.ref_count ≠ 1 →
          whisper_shared_release_buffer p s (some ptr)
            = { s with heap :=
                  s.heap.set ptr (some { b with ref_count := b.ref_count - 1 }) }) := by
  have hrun := run_attached cap calls (freshRing cap) 1 rfl rfl hstay
  have hfilter : ∀ c ∈ calls.filter Call.isTransfer, c.isTransfer = true :=
    fun c hc => (List.mem_filter.mp hc).2
  have hframe := run_transfer_frame cap (calls.filter Call.isTransfer) (freshRing cap) hfilter
  have hact : (run cap (freshRing cap) calls).g_active = true := by
    rw [hrun]; exact hframe.1
  have hsome : (run cap (freshRing cap) calls).g_audio_samples.isSome = true := by
    rw [hrun]; exact hframe.2.2
  refine ⟨hrun, fun hbal => ?_, hact, hsome, ?_, fun c hc => ?_, cleanup_other,
    fun K s ptr b hv hb hc => release_after_get cap K s ptr b hv hb (by omega),
    fun p s ptr b hb hc => release_other p s ptr b hb hc⟩
  · rw [hrun, hbal]
    show (1 : Int) + (countCleanup calls : Int) - (countCleanup calls : Int) = 1
    omega
  · obtain ⟨buf, hbuf⟩ := Option.isSome_iff_exists.mp hsome
    rw [write_active cap _ buf xs hact hbuf]
  · rw [hrun]
    exact observe_transfer_count cap _ c _ hc

theorem attached_ring_survives_witness :
    staysAttached 1
        [Call.init true, Call.write [1, 2, (3 : Int)], Call.init false, Call.cleanup,
          Call.read [0, 0] 2, Call.cleanup] = true
      ∧ run 4 (freshRing 4)
          [Call.init true, Call.write [1, 2, (3 : Int)], Call.init false, Call.cleanup,
            Call.read [0, 0] 2, Call.cleanup]
        = ⟨some [1, 2, 3, 0], 3, 2, true, 1⟩ :=
  ⟨by decide,
    (attached_ring_survives 4
      [Call.init true, Call.write [1, 2, (3 : Int)], Call.init false, Call.cleanup,
        Call.read [0, 0] 2, Call.cleanup] [] (by decide)).1.trans (by decide)⟩

/-- C15: the detach that finds the init count at 1 sets the count to 0, sets
the active flag to false and frees the storage (the pointer becomes `NULL`);
from then on, through any sequence of write, read and available calls, every
write and every read returns -1 and changes nothing, and
`whisper_shared_available` returns 0.  This is the Kth detach after K attaches:
it is the detach that follows any sequence keeping at least one attach
outstanding in which attaches and detaches balance.  A detach that finds
another count only decrements it.  For the struct-based ring: the release
that finds reference count 1 clears the variable and frees the block, and a
release that finds another count leaves the variable and the ring in place. -/
theorem last_detach_tears_down [Zero α] (cap : Nat) (g : Globals α)
    (later : List (Call α)) (xs out : List α) (n : Nat)
    (hcount : g.g_init_count = 1) (hT : ∀ c ∈ later, c.isTransfer = true) :
    whisper_shared_cleanup g
        = { g with g_init_count := 0, g_active := false, g_audio_samples := none }
      ∧ run cap (whisper_shared_cleanup g) later = whisper_shared_cleanup g
      ∧ whisper_shared_write cap (run cap (whisper_shared_cleanup g) later) xs
          = (-1, whisper_shared_cleanup g)
      ∧ whisper_shared_read cap (run cap (whisper_shared_cleanup g) later) out n
          = (-1, out, whisper_shared_cleanup g)
      ∧ whisper_shared_available cap (run cap (whisper_shared_cleanup g) later) = 0
      ∧ (∀ calls : List (Call α), staysAttached 1 calls = true →
          countInit calls = countCleanup calls →
          whisper_shared_cleanup (run cap (freshRing cap) calls)
            = { run cap (freshRing cap) (calls.filter Call.isTransfer) with
                g_init_count := 0, g_active := false, g_audio_samples := none })
      ∧ (∀ g2 : Globals α, g2.g_init_count ≠ 1 →
          whisper_shared_cleanup g2 = { g2 with g_init_count := g2.g_init_count - 1 })
      ∧ (∀ (s : Shared α) (ptr : Nat) (b : whisper_shared_buffer_t α),
          s.ring ptr = some b → b.ref_count = 1 →
          whisper_shared_release_buffer true s (some ptr)
              = { heap := s.heap.set ptr none, var := none }
            ∧ (whisper_shared_release_buffer true s (some ptr)).ring ptr = none)
      ∧ (∀ (p : Bool) (s : Shared α) (ptr : Nat) (b : whisper_shared_buffer_t α),
          s.ring ptr = some b → b.ref_count ≠ 1 →
          (whisper_shared_release_buffer p s (some ptr)).var = s.var
            ∧ (whisper_shared_release_buffer p s (some ptr)).ring ptr
                = some { b with ref_count := b.ref_count - 1 }) := by
  have hlast := cleanup_last g hcount
  have hinact : (whisper_shared_cleanup g).g_active = false := by rw [hlast]
  have hrun := run_inactive cap later _ hinact hT
  refine ⟨hlast, hrun, ?_, ?_, ?_, fun calls hstay hbal => ?_, cleanup_other,
    fun s ptr b hb hc => ?_, fun p s ptr b hb hc => ?_⟩
  · rw [hrun]; exact write_inactive cap _ xs (Or.inl hinact)
  · rw [hrun]; exact read_inactive cap _ out n (Or.inl hinact)
  · rw [hrun]; exact available_inactive cap _ hinact
  · have h1 := run_attached cap calls (freshRing cap) 1 rfl rfl hstay
    have hc1 : (run cap (freshRing cap) calls).g_init_count = 1 := by
      rw [h1, hbal]
      show (1 : Int) + (countCleanup calls : Int) - (countCleanup calls : Int) = 1
      omega
    rw [cleanup_last _ hc1, h1]
  · have hlt := ring_lt s ptr b hb
    rw [release_last s ptr b hb hc]
    exact ⟨rfl, ring_set s.heap ptr none none hlt⟩
  · have hlt := ring_lt s ptr b hb
    rw [release_other p s ptr b hb hc]
    exact ⟨rfl, ring_set s.heap ptr _ s.var hlt⟩

theorem last_detach_tears_down_witness :
    (⟨some [1, 2, 3], 2, 1, true, 1⟩ : Globals Int).g_init_count = 1
      ∧ (∀ c ∈ [Call.write [7, (8 : Int)], Call.read [0] 1], c.isTransfer = true)
      ∧ whisper_shared_cleanup (⟨some [1, 2, 3], 2, 1, true, 1⟩ : Globals Int)
          = ⟨none, 2, 1, false, 0⟩
      ∧ whisper_shared_write 3
          (run 3 (whisper_shared_cleanup (⟨some [1, 2, 3], 2, 1, true, 1⟩ : Globals Int))
            [Call.write [7, (8 : Int)], Call.read [0] 1]) [9]
        = (-1, ⟨none, 2, 1, false, 0⟩) :=
  ⟨rfl, by decide,
    (last_detach_tears_down 3 (⟨some [1, 2, 3], 2, 1, true, 1⟩ : Globals Int)
      [Call.write [7, (8 : Int)], Call.read [0] 1] [9] [0] 1 rfl (by decide)).1,
    (last_detach_tears_down 3 (⟨some [1, 2, 3], 2, 1, true, 1⟩ : Globals Int)
      [Call.write [7, (8 : Int)], Call.read [0] 1] [9] [0] 1 rfl (by decide)).2.2.1⟩

/-- C16: whatever the storage contents and cursors of the ring whose last
attach is being released (init count 1), the detach followed by an attach
whose allocation succeeds returns 0 and leaves exactly the freshly created
ring: init count 1, active, both cursors 0, `whisper_shared_available` 0 and
every one of the `cap` storage slots 0.  For the struct-based ring: the last
release followed by a get whose allocations succeed frees the old block and
registers a new block, at another address, holding a ring with reference count
1, active, cursors 0 and `cap` zero slots. -/
theorem reattach_gives_fresh_ring [Zero α] (cap : Nat) (g : Globals α) (s : Shared α)
    (ptr : Nat) (b : whisper_shared_buffer_t α)
    (hcount : g.g_init_count = 1)
    (hb : s.ring ptr = some b) (hbcount : b.ref_count = 1) :
    whisper_shared_init cap true (whisper_shared_cleanup g) = (0, freshRing cap)
      ∧ (freshRing cap : Globals α)
          = { g_audio_samples := some (List.replicate cap 0), g_write_pos := 0,
              g_read_pos := 0, g_active := true, g_init_count := 1 }
      ∧ whisper_shared_available cap (freshRing cap : Globals α) = 0
      ∧ (List.replicate cap (0 : α)).length = cap
      ∧ (∀ i, i < cap → (List.replicate cap (0 : α))[i]? = some 0)
      ∧ whisper_shared_get_buffer cap true true true
            (whisper_shared_release_buffer true s (some ptr))
          = (some s.heap.length,
              { heap := s.heap.set ptr none
                  ++ [some { samples := List.replicate cap 0, write_pos := 0, read_pos := 0,
                             active := true, ref_count := 1 }],
                var := some s.heap.length })
      ∧ s.heap.length ≠ ptr
      ∧ (whisper_shared_get_buffer cap true true true
            (whisper_shared_release_buffer true s (some ptr))).2.ring ptr = none
      ∧ (whisper_shared_get_buffer cap true true true
            (whisper_shared_release_buffer true s (some ptr))).2.ring s.heap.length
          = some { samples := List.replicate cap 0, write_pos := 0, read_pos := 0,
                   active := true, ref_count := 1 } := by
  have hlt := ring_lt s ptr b hb
  have hget : whisper_shared_get_buffer cap true true true
        (whisper_shared_release_buffer true s (some ptr))
      = (some s.heap.length,
          { heap := s.heap.set ptr none
              ++ [some { samples := List.replicate cap 0, write_pos := 0, read_pos := 0,
                         active := true, ref_count := 1 }],
            var := some s.heap.length }) := by
    rw [release_last s ptr b hb hbcount, get_buffer_first cap _ rfl]
    simp
  refine ⟨?_, rfl, rfl, List.length_replicate _ _, fun i hi => ?_, hget, by omega, ?_, ?_⟩
  · rw [cleanup_last g hcount, init_first cap _ rfl]
    rfl
  · rw [List.getElem?_replicate, if_pos hi]
  · rw [hget]
    show ((s.heap.set ptr none ++ _)[ptr]?).join = none
    rw [List.getElem?_append_left (by simpa using hlt), List.getElem?_set_self hlt]
    rfl
  · rw [hget]
    show ((s.heap.set ptr none ++ _)[s.heap.length]?).join = _
    rw [List.getElem?_append_right (by simp)]
    simp

theorem reattach_gives_fresh_ring_witness :
    (⟨some [1, 2, 3], 2, 1, true, 1⟩ : Globals Int).g_init_count = 1
      ∧ (⟨[some ⟨[4, 5, 6], 1, 2, true, 1⟩], some 0⟩ : Shared Int).ring 0
          = some ⟨[4, 5, 6], 1, 2, true, 1⟩
      ∧ (⟨[4, 5, 6], 1, 2, true, 1⟩ : whisper_shared_buffer_t Int).ref_count = 1
      ∧ whisper_shared_init 3 true
          (whisper_shared_cleanup (⟨some [1, 2, 3], 2, 1, true, 1⟩ : Globals Int))
        = (0, ⟨some [0, 0, 0], 0, 0, true, 1⟩) :=
  ⟨rfl, rfl, rfl,
    (reattach_gives_fresh_ring 3 (⟨some [1, 2, 3], 2, 1, true, 1⟩ : Globals Int)
      ⟨[some ⟨[4, 5, 6], 1, 2, true, 1⟩], some 0⟩ 0 ⟨[4, 5, 6], 1, 2, true, 1⟩
      rfl rfl rfl).1⟩

/-- C17: when no ring is registered (init count 0, or the variable holding
`NULL`) and allocation succeeds, the attach returns success and leaves a ring
whose storage has exactly `cap` slots, all 0, with write cursor 0, read cursor
0, active flag true and count 1; with the capacity of the source,
`WHISPER_BUFFER_SIZE`, these are 160000 slots.  The struct-based attach
returns the address of a new block holding such a ring and stores that address
in the variable. -/
theorem first_attach_creates_ring [Zero α] (cap : Nat) (g : Globals α) (s : Shared α)
    (hcount : g.g_init_count = 0) (hvar : s.var = none) :
    whisper_shared_init cap true g
        = (0, { g_audio_samples := some (List.replicate cap 0), g_write_pos := 0,
                g_read_pos := 0, g_active := true, g_init_count := 1 })
      ∧ (List.replicate cap (0 : α)).length = cap
      ∧ (∀ i, i < cap → (List.replicate cap (0 : α))[i]? = some 0)
      ∧ (List.replicate WHISPER_BUFFER_SIZE (0 : α)).length = 160000
      ∧ whisper_shared_get_buffer cap true true true s
          = (some s.heap.length,
              { heap := s.heap
                  ++ [some { samples := List.replicate cap 0, write_pos := 0, read_pos := 0,
                             active := true, ref_count := 1 }],
                var := some s.heap.length })
      ∧ (whisper_shared_get_buffer cap true true true s).2.ring s.heap.length
          = some { samples := List.replicate cap 0, write_pos := 0, read_pos := 0,
                   active := true, ref_count := 1 } := by
  refine ⟨init_first cap g hcount, List.length_replicate _ _, fun i hi => ?_, ?_,
    get_buffer_first cap s hvar, ?_⟩
  · rw [List.getElem?_replicate, if_pos hi]
  · rw [List.length_replicate]
    rfl
  · rw [get_buffer_first cap s hvar]
    show ((s.heap ++ _)[s.heap.length]?).join = _
    rw [List.getElem?_append_right (Nat.le_refl _)]
    simp

theorem first_attach_creates_ring_witness :
    (Globals.initial : Globals Int).g_init_count = 0
      ∧ (⟨[], none⟩ : Shared Int).var = none
      ∧ whisper_shared_init 3 true (Globals.initial : Globals Int)
          = (0, ⟨some [0, 0, 0], 0, 0, true, 1⟩)
      ∧ whisper_shared_get_buffer 3 true true true (⟨[], none⟩ : Shared Int)
          = (some 0, ⟨[some ⟨[0, 0, 0], 0, 0, true, 1⟩], some 0⟩) :=
  ⟨rfl, rfl,
    (first_attach_creates_ring 3 (Globals.initial : Globals Int) ⟨[], none⟩ rfl rfl).1,
    (first_attach_creates_ring 3 (Globals.initial : Globals Int) ⟨[], none⟩ rfl rfl).2.2.2.2.1⟩

/-- C18: when a ring is already registered, the attach returns success with
the same ring and increases the count by exactly 1; it allocates nothing (the
result does not depend on what `malloc` would return, and no block is added),
and it leaves the storage contents, the write cursor and the read cursor as
they were.  On the globals the call also stores true in the active flag, which
changes nothing on an active ring. -/
theorem attach_existing_bumps_count [Zero α] (cap : Nat) (ok mb ms : Bool) (g : Globals α)
    (s : Shared α) (ptr : Nat) (b : whisper_shared_buffer_t α)
    (hcount : 1 ≤ g.g_init_count)
    (hv : s.var = some ptr) (hb : s.ring ptr = some b) :
    whisper_shared_init cap ok g
        = (0, { g with g_init_count := g.g_init_count + 1, g_active := true })
      ∧ (g.g_active = true →
          whisper_shared_init cap ok g = (0, { g with g_init_count := g.g_init_count + 1 }))
      ∧ whisper_shared_get_buffer cap true mb ms s
          = (some ptr,
              { s with heap :=
                  s.heap.set ptr (some { b with ref_count := b.ref_count + 1 }) })
      ∧ (whisper_shared_get_buffer cap true mb ms s).2.heap.length = s.heap.length
      ∧ (whisper_shared_get_buffer cap true mb ms s).2.ring ptr
          = some { b with ref_count := b.ref_count + 1 }
      ∧ (∀ q, q ≠ ptr →
          (whisper_shared_get_buffer cap true mb ms s).2.ring q = s.ring q) := by
  have hinit := init_attached cap ok g (by omega)
  have hget := get_buffer_registered cap mb ms s ptr b hv hb
  have hlt := ring_lt s ptr b hb
  refine ⟨hinit, fun hact => ?_, hget, ?_, ?_, fun q hq => ?_⟩
  · rw [hinit]
    obtain ⟨sm, w, r, a, c⟩ := g
    simp only at hact
    subst hact
    rfl
  · rw [hget]; simp
  · rw [hget]; exact ring_set s.heap ptr _ s.var hlt
  · rw [hget]
    show ((s.heap.set ptr _)[q]?).join = (s.heap[q]?).join
    rw [List.getElem?_set_ne (fun h => hq h.symm)]

theorem attach_existing_bumps_count_witness :
    1 ≤ (⟨some [1, 2, 3], 2, 1, true, 1⟩ : Globals Int).g_init_count
      ∧ (⟨[some ⟨[4, 5, 6], 1, 2, true, 1⟩], some 0⟩ : Shared Int).var = some 0
      ∧ (⟨[some ⟨[4, 5, 6], 1, 2, true, 1⟩], some 0⟩ : Shared Int).ring 0
          = some ⟨[4, 5, 6], 1, 2, true, 1⟩
      ∧ whisper_shared_init 3 false (⟨some [1, 2, 3], 2, 1, true, 1⟩ : Globals Int)
          = (0, ⟨some [1, 2, 3], 2, 1, true, 2⟩)
      ∧ whisper_shared_get_buffer 3 true false false
          (⟨[some ⟨[4, 5, 6], 1, 2, true, 1⟩], some 0⟩ : Shared Int)
          = (some 0, ⟨[some ⟨[4, 5, 6], 1, 2, true, 2⟩], some 0⟩) :=
  ⟨by decide, rfl, rfl,
    (attach_existing_bumps_count 3 false false false
      (⟨some [1, 2, 3], 2, 1, true, 1⟩ : Globals Int)
      ⟨[some ⟨[4, 5, 6], 1, 2, true, 1⟩], some 0⟩ 0 ⟨[4, 5, 6], 1, 2, true, 1⟩
      (by decide) rfl rfl).1,
    (attach_existing_bumps_count 3 false false false
      (⟨some [1, 2, 3], 2, 1, true, 1⟩ : Globals Int)
      ⟨[some ⟨[4, 5, 6], 1, 2, true, 1⟩], some 0⟩ 0 ⟨[4, 5, 6], 1, 2, true, 1⟩
      (by decide) rfl rfl).2.2.1⟩

/-- C19: in every state the globals reach from their initial values with no
attach outstanding (init count 0), an attach whose allocation fails returns -1
and leaves every global as it was, and the attach after it whose allocation
succeeds returns 0 and leaves the freshly created ring, with count 1.  The
struct-based attach, when the variable holds `NULL` and one of its two
allocations fails, returns `NULL` and leaves the heap and the variable as they
were, and the attach after it whose allocations succeed registers a new ring
with reference count 1. -/
theorem failed_attach_changes_nothing [Zero α] (cap : Nat) (calls : List (Call α))
    (p mb ms : Bool) (s : Shared α)
    (hcount : (run cap (Globals.initial : Globals α) calls).g_init_count = 0)
    (hvar : s.var = none) (hfail : mb = false ∨ ms = false) :
    whisper_shared_init cap false (run cap Globals.initial calls)
        = (-1, run cap Globals.initial calls)
      ∧ whisper_shared_init cap true
          (whisper_shared_init cap false (run cap Globals.initial calls)).2
          = (0, freshRing cap)
      ∧ (freshRing cap : Globals α).g_init_count = 1
      ∧ whisper_shared_get_buffer cap p mb ms s = (none, s)
      ∧ whisper_shared_get_buffer cap true true true
            (whisper_shared_get_buffer cap p mb ms s).2
          = (some s.heap.length,
              { heap := s.heap
                  ++ [some { samples := List.replicate cap 0, write_pos := 0, read_pos := 0,
                             active := true, ref_count := 1 }],
                var := some s.heap.length }) := by
  have hnone := unattached_run cap calls (Globals.initial : Globals α) (fun _ => rfl)
    (by rw [hcount])
  have hfailed : whisper_shared_init cap false (run cap Globals.initial calls)
      = (-1, run cap Globals.initial calls) := by
    rw [init_first_failed cap _ hcount]
    generalize run cap (Globals.initial : Globals α) calls = g at hnone
    obtain ⟨sm, w, r, a, c⟩ := g
    simp only at hnone
    subst hnone
    rfl
  refine ⟨hfailed, ?_, rfl, get_buffer_failed cap p mb ms s hvar hfail, ?_⟩
  · rw [hfailed, init_first cap _ hcount]
    rfl
  · rw [get_buffer_failed cap p mb ms s hvar hfail]
    exact get_buffer_first cap s hvar

theorem failed_attach_changes_nothing_witness :
    (run 3 (Globals.initial : Globals Int)
        [Call.init true, Call.write [1, 2], Call.cleanup]).g_init_count = 0
      ∧ (⟨[none], none⟩ : Shared Int).var = none
      ∧ (true = false ∨ false = false)
      ∧ whisper_shared_init 3 false
          (run 3 (Globals.initial : Globals Int)
            [Call.init true, Call.write [1, 2], Call.cleanup])
        = (-1, ⟨none, 2, 0, false, 0⟩)
      ∧ whisper_shared_get_buffer 3 true true false (⟨[none], none⟩ : Shared Int)
          = (none, ⟨[none], none⟩) :=
  ⟨rfl, rfl, Or.inr rfl,
    (failed_attach_changes_nothing 3 [Call.init true, Call.write [1, (2 : Int)], Call.cleanup]
      true true false ⟨[none], none⟩ rfl rfl (Or.inr rfl)).1,
    (failed_attach_changes_nothing 3 [Call.init true, Call.write [1, (2 : Int)], Call.cleanup]
      true true false ⟨[none], none⟩ rfl rfl (Or.inr rfl)).2.2.2.1⟩

/-- C20, as stated, fails: a read on a deactivated ring and a read of 3
samples on an active ring holding 2 samples both return -1, the same result,
for the globals and for the struct-based ring alike. -/
theorem read_failures_share_one_code :
    (whisper_shared_read 4
        (whisper_shared_cleanup (whisper_shared_write 4 (freshRing 4) [1, (2 : Int)]).2)
        [0, 0, 0] 3).1 = -1
      ∧ (whisper_shared_read 4 (whisper_shared_write 4 (freshRing 4) [1, (2 : Int)]).2
          [0, 0, 0] 3).1 = -1
      ∧ (whisper_shared_read_buffer 4
          (some (⟨[1, 2, 0, 0], 2, 0, false, 0⟩ : whisper_shared_buffer_t Int)) [0, 0, 0] 3).1
        = (whisper_shared_read_buffer 4
          (some (⟨[1, 2, 0, 0], 2, 0, true, 1⟩ : whisper_shared_buffer_t Int)) [0, 0, 0] 3).1 := by
  decide

/-- C20 (amended): a read on a deactivated ring fails with -1, and a read on
an active ring holding fewer than `count` samples fails with -1 as well; both
hand the caller's buffer back and leave the ring as they were, so the return
value is the same for the two conditions.  This holds for the globals and for
the struct-based ring. -/
theorem read_failure_codes_coincide [Zero α] (cap : Nat) (g1 g2 : Globals α)
    (b1 b2 : whisper_shared_buffer_t α) (out : List α) (count : Nat)
    (hinactive : g1.g_active = false) (hactive : g2.g_active = true)
    (hshort : whisper_shared_available cap g2 < count)
    (hb1 : b1.active = false) (hb2 : b2.active = true)
    (hbshort : whisper_shared_available_buffer cap (some b2) < count) :
    whisper_shared_read cap g1 out count = (-1, out, g1)
      ∧ whisper_shared_read cap g2 out count = (-1, out, g2)
      ∧ (whisper_shared_read cap g1 out count).1 = (whisper_shared_read cap g2 out count).1
      ∧ whisper_shared_read_buffer cap (some b1) out count = (-1, out, some b1)
      ∧ whisper_shared_read_buffer cap (some b2) out count = (-1, out, some b2)
      ∧ (whisper_shared_read_buffer cap (some b1) out count).1
          = (whisper_shared_read_buffer cap (some b2) out count).1 := by
  have e1 := read_inactive cap g1 out count (Or.inl hinactive)
  have e2 := read_short cap g2 out count hactive hshort
  have e3 : whisper_shared_read_buffer cap (some b1) out count = (-1, out, some b1) := by
    simp [whisper_shared_read_buffer, hb1]
  have e4 : whisper_shared_read_buffer cap (some b2) out count = (-1, out, some b2) := by
    simp only [whisper_shared_available_buffer, hb2, Bool.not_true, Bool.false_eq_true,
      if_false] at hbshort
    simp [whisper_shared_read_buffer, hb2, hbshort]
  exact ⟨e1, e2, by rw [e1, e2], e3, e4, by rw [e3, e4]⟩

theorem read_failure_codes_coincide_witness :
    (⟨none, 2, 0, false, 0⟩ : Globals Int).g_active = false
      ∧ (⟨some [1, 2, 0, 0], 2, 0, true, 1⟩ : Globals Int).g_active = true
      ∧ whisper_shared_available 4 (⟨some [1, 2, 0, 0], 2, 0, true, 1⟩ : Globals Int) < 3
      ∧ (⟨[1, 2, 0, 0], 2, 0, false, 0⟩ : whisper_shared_buffer_t Int).active = false
      ∧ (⟨[1, 2, 0, 0], 2, 0, true, 1⟩ : whisper_shared_buffer_t Int).active = true
      ∧ whisper_shared_available_buffer 4
          (some (⟨[1, 2, 0, 0], 2, 0, true, 1⟩ : whisper_shared_buffer_t Int)) < 3
      ∧ (whisper_shared_read 4 (⟨none, 2, 0, false, 0⟩ : Globals Int) [0, 0, 0] 3).1
          = (whisper_shared_read 4 (⟨some [1, 2, 0, 0], 2, 0, true, 1⟩ : Globals Int)
              [0, 0, 0] 3).1 :=
  ⟨rfl, rfl, by decide, rfl, rfl, by decide,
    (read_failure_codes_coincide 4 (⟨none, 2, 0, false, 0⟩ : Globals Int)
      ⟨some [1, 2, 0, 0], 2, 0, true, 1⟩ ⟨[1, 2, 0, 0], 2, 0, false, 0⟩
      ⟨[1, 2, 0, 0], 2, 0, true, 1⟩ [0, 0, 0] 3 rfl rfl (by decide) rfl rfl (by decide)).2.2.1⟩

/-- C24: with both cursors below `cap`, `whisper_shared_available` returns at
most cap - 1, and a read of `cap` samples returns -1 and changes nothing; the
same holds for the struct-based ring. -/
theorem never_reports_full [Zero α] (cap : Nat) (g : Globals α)
    (b : whisper_shared_buffer_t α) (out : List α)
    (hw : g.g_write_pos < cap) (hr : g.g_read_pos < cap)
    (hbw : b.write_pos < cap) (hbr : b.read_pos < cap) :
    whisper_shared_available cap g ≤ cap - 1
      ∧ whisper_shared_read cap g out cap = (-1, out, g)
      ∧ whisper_shared_available_buffer cap (some b) ≤ cap - 1
      ∧ whisper_shared_read_buffer cap (some b) out cap = (-1, out, some b) := by
  have hav := available_le cap g hw hr
  have hbav := availableSamples_lt cap b.write_pos b.read_pos hbw hbr
  refine ⟨by omega, ?_, ?_, ?_⟩
  · cases hact : g.g_active with
    | false => exact read_inactive cap g out cap (Or.inl hact)
    | true => exact read_short cap g out cap hact hav
  · cases hact : b.active with
    | false => rw [available_buffer_inactive cap b hact]; omega
    | true => rw [available_buffer_active cap b hact]; omega
  · cases hact : b.active with
    | false => exact read_buffer_inactive cap b out cap hact
    | true => rw [read_buffer_active cap b out cap hact, if_pos hbav]

theorem never_reports_full_witness :
    (⟨some [4, 5, 6], 1, 2, true, 1⟩ : Globals Int).g_write_pos < 3
      ∧ (⟨some [4, 5, 6], 1, 2, true, 1⟩ : Globals Int).g_read_pos < 3
      ∧ (⟨[4, 5, 6], 2, 0, true, 1⟩ : whisper_shared_buffer_t Int).write_pos < 3
      ∧ (⟨[4, 5, 6], 2, 0, true, 1⟩ : whisper_shared_buffer_t Int).read_pos < 3
      ∧ whisper_shared_available 3 (⟨some [4, 5, 6], 1, 2, true, 1⟩ : Globals Int) ≤ 3 - 1 :=
  ⟨by decide, by decide, by decide, by decide,
    (never_reports_full 3 (⟨some [4, 5, 6], 1, 2, true, 1⟩ : Globals Int)
      ⟨[4, 5, 6], 2, 0, true, 1⟩ [0, 0, 0] (by decide) (by decide) (by decide) (by decide)).1⟩

/-- C25: on an active ring with allocated storage and cursors below `cap`,
with `whisper_shared_available` equal to a before a write of k samples, it is
(a + k) mod cap after the write; so a write of exactly `cap` samples leaves it
unchanged, and a write with cap ≤ a + k < 2 cap leaves a + k - cap. -/
theorem available_modular_in_written [Zero α] (cap : Nat) (g : Globals α)
    (buf xs : List α) (hact : g.g_active = true) (hbuf : g.g_audio_samples = some buf)
    (hw : g.g_write_pos < cap) (hr : g.g_read_pos < cap) :
    whisper_shared_available cap (whisper_shared_write cap g xs).2
        = (whisper_shared_available cap g + xs.length) % cap
      ∧ (xs.length = cap →
          whisper_shared_available cap (whisper_shared_write cap g xs).2
            = whisper_shared_available cap g)
      ∧ (cap ≤ whisper_shared_available cap g + xs.length →
          whisper_shared_available cap g + xs.length < 2 * cap →
          whisper_shared_available cap (whisper_shared_write cap g xs).2
            = whisper_shared_available cap g + xs.length - cap) := by
  have hlt := available_le cap g hw hr
  have hmain : whisper_shared_available cap (whisper_shared_write cap g xs).2
      = (whisper_shared_available cap g + xs.length) % cap := by
    obtain ⟨s, w, r, a, c⟩ := g
    simp only at hact hbuf hw hr
    subst hact hbuf
    show availableSamples cap (writeLoop cap xs buf w).2 r
      = (availableSamples cap w r + xs.length) % cap
    rw [writeLoop_pos cap xs buf _ hw]
    exact availableSamples_after_write cap _ _ _ hw hr
  refine ⟨hmain, fun hk => ?_, fun h1 h2 => ?_⟩
  · rw [hmain, hk, Nat.add_mod_right, Nat.mod_eq_of_lt hlt]
  · rw [hmain]
    rcases mod_wrap cap _ h2 with ⟨h3, _⟩ | ⟨_, h4⟩
    · omega
    · exact h4

theorem available_modular_in_written_witness :
    (⟨some [4, 5, 6], 1, 2, true, 1⟩ : Globals Int).g_active = true
      ∧ (⟨some [4, 5, 6], 1, 2, true, 1⟩ : Globals Int).g_audio_samples = some [4, 5, 6]
      ∧ (⟨some [4, 5, 6], 1, 2, true, 1⟩ : Globals Int).g_write_pos < 3
      ∧ (⟨some [4, 5, 6], 1, 2, true, 1⟩ : Globals Int).g_read_pos < 3
      ∧ whisper_shared_available 3
          (whisper_shared_write 3 (⟨some [4, 5, 6], 1, 2, true, 1⟩ : Globals Int) [7, 8]).2
        = (whisper_shared_available 3 (⟨some [4, 5, 6], 1, 2, true, 1⟩ : Globals Int)
            + [7, (8 : Int)].length) % 3 :=
  ⟨rfl, rfl, by decide, by decide,
    (available_modular_in_written 3 (⟨some [4, 5, 6], 1, 2, true, 1⟩ : Globals Int)
      [4, 5, 6] [7, 8] rfl rfl (by decide) (by decide)).1⟩

/-- C26: for every state of the ring and all sample sequences s1 and s2, the
write of s1 followed by the write of s2 gives the same return code and the same
state (storage, write cursor, read cursor and the rest) as the single write of
s1 followed by s2 in one array; this holds for `whisper_shared_write` and for
`whisper_shared_write_buffer`. -/
theorem writes_compose (cap : Nat) (g : Globals α) (b : whisper_shared_buffer_t α)
    (s1 s2 : List α) :
    whisper_shared_write cap (whisper_shared_write cap g s1).2 s2
        = whisper_shared_write cap g (s1 ++ s2)
      ∧ whisper_shared_write_buffer cap (whisper_shared_write_buffer cap (some b) s1).2 s2
        = whisper_shared_write_buffer cap (some b) (s1 ++ s2) := by
  constructor
  · obtain ⟨s, w, r, a, c⟩ := g
    cases a <;> cases s <;> try rfl
    simp only [whisper_shared_write, writeLoop_append]
  · obtain ⟨sm, w, r, a, rc⟩ := b
    cases a
    · rfl
    · simp [whisper_shared_write_buffer, writeLoop_append]

/-- C27: on corresponding states (same storage contents, cursors and active
flag, the storage of the globals allocated), `whisper_shared_write`,
`whisper_shared_read` and `whisper_shared_available` return what
`whisper_shared_write_buffer`, `whisper_shared_read_buffer` and
`whisper_shared_available_buffer` return (return code, caller's buffer,
sample count) and leave corresponding states. -/
theorem implementations_agree [Zero α] (cap : Nat) (b : whisper_shared_buffer_t α)
    (g : Globals α) (xs out : List α) (n : Nat) (h : Corresponds b g) :
    (whisper_shared_write cap g xs).1 = (whisper_shared_write_buffer cap (some b) xs).1
      ∧ (∃ b2, (whisper_shared_write_buffer cap (some b) xs).2 = some b2
          ∧ Corresponds b2 (whisper_shared_write cap g xs).2)
      ∧ (whisper_shared_read cap g out n).1 = (whisper_shared_read_buffer cap (some b) out n).1
      ∧ (whisper_shared_read cap g out n).2.1
          = (whisper_shared_read_buffer cap (some b) out n).2.1
      ∧ (∃ b2, (whisper_shared_read_buffer cap (some b) out n).2.2 = some b2
          ∧ Corresponds b2 (whisper_shared_read cap g out n).2.2)
      ∧ whisper_shared_available cap g = whisper_shared_available_buffer cap (some b) := by
  obtain ⟨gs, gw, gr, ga, gc⟩ := g
  obtain ⟨bs, bw, br, ba, bc⟩ := b
  simp only [Corresponds] at h
  obtain ⟨rfl, rfl, rfl, rfl⟩ := h
  cases ga with
  | false =>
      exact ⟨rfl, ⟨_, rfl, rfl, rfl, rfl, rfl⟩, rfl, rfl, ⟨_, rfl, rfl, rfl, rfl, rfl⟩, rfl⟩
  | true =>
      have e1 := read_active cap (⟨some bs, gw, gr, true, gc⟩ : Globals α) bs out n rfl rfl
      have e2 := read_buffer_active cap (⟨bs, gw, gr, true, bc⟩ : whisper_shared_buffer_t α)
        out n rfl
      simp only at e1 e2
      refine ⟨rfl, ⟨_, rfl, rfl, rfl, rfl, rfl⟩, ?_, ?_, ?_, rfl⟩
      · rw [e1, e2]; split <;> rfl
      · rw [e1, e2]; split <;> rfl
      · rw [e1, e2]
        split
        · exact ⟨_, rfl, rfl, rfl, rfl, rfl⟩
        · exact ⟨_, rfl, rfl, rfl, rfl, rfl⟩

theorem implementations_agree_witness :
    Corresponds (⟨[4, 5, 6], 1, 2, true, 7⟩ : whisper_shared_buffer_t Int)
        ⟨some [4, 5, 6], 1, 2, true, 1⟩
      ∧ whisper_shared_available 3 (⟨some [4, 5, 6], 1, 2, true, 1⟩ : Globals Int)
          = whisper_shared_available_buffer 3
              (some (⟨[4, 5, 6], 1, 2, true, 7⟩ : whisper_shared_buffer_t Int)) :=
  ⟨⟨rfl, rfl, rfl, rfl⟩,
    (implementations_agree 3 (⟨[4, 5, 6], 1, 2, true, 7⟩ : whisper_shared_buffer_t Int)
      ⟨some [4, 5, 6], 1, 2, true, 1⟩ [7, 8] [0, 0] 2 ⟨rfl, rfl, rfl, rfl⟩).2.2.2.2.2⟩

/-- C21, as stated, fails for the ring in the globals: after an attach and
the detach that sets the active flag to false, one more attach stores true in
the same flag. -/
theorem active_again_after_reinit :
    (run 3 (Globals.initial : Globals Int) [Call.init true]).g_active = true
      ∧ (run 3 (Globals.initial : Globals Int) [Call.init true, Call.cleanup]).g_active = false
      ∧ (run 3 (Globals.initial : Globals Int)
          [Call.init true, Call.cleanup, Call.init true]).g_active = true := by
  decide

/-- C21 (amended): once the active flag of the globals is false, no sequence
of cleanup, write, read and available calls sets it back to true; a call of
`whisper_shared_init` that returns 0 does, storing true in the same flag.  For
the struct-based ring, the block freed by the last release stays freed through
every sequence of get and release calls (a later attach puts its new ring in a
new block). -/
theorem inactive_until_next_init [Zero α] (cap : Nat) (g : Globals α)
    (calls : List (Call α)) (s : Shared α) (ptr : Nat) (lifetime : List LifetimeCall)
    (hinactive : g.g_active = false) (hnoinit : countInit calls = 0)
    (hfreed : s.ring ptr = none) (hptr : ptr < s.heap.length) :
    (run cap g calls).g_active = false
      ∧ (∀ ok : Bool, (whisper_shared_init cap ok (run cap g calls)).1 = 0 →
          (whisper_shared_init cap ok (run cap g calls)).2.g_active = true)
      ∧ (runShared cap s lifetime).ring ptr = none
      ∧ ptr < (runShared cap s lifetime).heap.length :=
  ⟨inactive_run cap calls g hinactive hnoinit,
    fun ok h => init_success_active cap ok _ h,
    (freed_run cap lifetime s ptr hfreed hptr).1,
    (freed_run cap lifetime s ptr hfreed hptr).2⟩

theorem inactive_until_next_init_witness :
    (⟨none, 2, 1, false, 0⟩ : Globals Int).g_active = false
      ∧ countInit [Call.write [1, (2 : Int)], Call.cleanup, Call.read [0] 1, Call.available] = 0
      ∧ (⟨[none], none⟩ : Shared Int).ring 0 = none
      ∧ 0 < (⟨[none], none⟩ : Shared Int).heap.length
      ∧ (run 3 (⟨none, 2, 1, false, 0⟩ : Globals Int)
          [Call.write [1, (2 : Int)], Call.cleanup, Call.read [0] 1, Call.available]).g_active
          = false
      ∧ (runShared 3 (⟨[none], none⟩ : Shared Int)
          [LifetimeCall.get true true true, LifetimeCall.release true (some 1)]).ring 0 = none :=
  ⟨rfl, rfl, rfl, by decide,
    (inactive_until_next_init 3 (⟨none, 2, 1, false, 0⟩ : Globals Int)
      [Call.write [1, (2 : Int)], Call.cleanup, Call.read [0] 1, Call.available]
      ⟨[none], none⟩ 0 [LifetimeCall.get true true true, LifetimeCall.release true (some 1)]
      rfl rfl rfl (by decide)).1,
    (inactive_until_next_init 3 (⟨none, 2, 1, false, 0⟩ : Globals Int)
      [Call.write [1, (2 : Int)], Call.cleanup, Call.read [0] 1, Call.available]
      ⟨[none], none⟩ 0 [LifetimeCall.get true true true, LifetimeCall.release true (some 1)]
      rfl rfl rfl (by decide)).2.2.1⟩

/-- C23: in one iteration of the transcription worker on a ring with cursors
below `cap`: if the available count is below 32000 the iteration calls no read
and leaves the ring, its read cursor included, and the processing buffer as
they were; otherwise it calls the read with exactly min(available, 80000)
samples, the read returns 0, the read cursor becomes the old one plus that
count, modulo `cap`, and the available count drops by exactly that count. -/
theorem polling_protocol [Zero α] (cap : Nat) (b : whisper_shared_buffer_t α)
    (process_buffer : List α) (hw : b.write_pos < cap) (hr : b.read_pos < cap) :
    (whisper_shared_available_buffer cap (some b) < 32000 →
        processingIteration cap (some b) process_buffer = (none, process_buffer, some b))
      ∧ (32000 ≤ whisper_shared_available_buffer cap (some b) →
          (processingIteration cap (some b) process_buffer).1
              = some (0, min (whisper_shared_available_buffer cap (some b)) 80000)
            ∧ (processingIteration cap (some b) process_buffer).2.2
              = some { b with read_pos :=
                  (b.read_pos + min (whisper_shared_available_buffer cap (some b)) 80000)
                    % cap }
            ∧ whisper_shared_available_buffer cap
                (processingIteration cap (some b) process_buffer).2.2
              = whisper_shared_available_buffer cap (some b)
                - min (whisper_shared_available_buffer cap (some b)) 80000) := by
  have h2 : WHISPER_SAMPLE_RATE * 2 = 32000 := rfl
  have h5 : WHISPER_SAMPLE_RATE * 5 = 80000 := rfl
  constructor
  · intro hlt
    simp only [processingIteration, h2, if_pos hlt]
  · intro hge
    by_cases hact : b.active = true
    case neg =>
        rw [available_buffer_inactive cap b (by simpa using hact)] at hge
        exact absurd hge (by decide)
    case pos =>
        have hav := available_buffer_active cap b hact
        rw [hav] at hge
        have hcount : (if availableSamples cap b.write_pos b.read_pos > 80000 then 80000
            else availableSamples cap b.write_pos b.read_pos)
            = min (availableSamples cap b.write_pos b.read_pos) 80000 := by
          rw [Nat.min_def]
          split <;> split <;> omega
        have hle : min (availableSamples cap b.write_pos b.read_pos) 80000
            ≤ availableSamples cap b.write_pos b.read_pos := Nat.min_le_left _ _
        have hread := read_buffer_active cap b process_buffer
          (min (availableSamples cap b.write_pos b.read_pos) 80000) hact
        rw [if_neg (Nat.not_lt.mpr hle)] at hread
        have hiter : processingIteration cap (some b) process_buffer
            = (some (0, min (availableSamples cap b.write_pos b.read_pos) 80000),
                readLoop cap b.samples b.read_pos
                  (min (availableSamples cap b.write_pos b.read_pos) 80000) process_buffer,
                some { b with read_pos :=
                  (b.read_pos + min (availableSamples cap b.write_pos b.read_pos) 80000)
                    % cap }) := by
          simp only [processingIteration, h2, h5, hav, if_neg (Nat.not_lt.mpr hge), hcount,
            hread]
        rw [hiter, hav]
        refine ⟨rfl, rfl, ?_⟩
        show whisper_shared_available_buffer cap
            (some { b with read_pos :=
              (b.read_pos + min (availableSamples cap b.write_pos b.read_pos) 80000) % cap })
          = _
        rw [available_buffer_active cap
          { b with read_pos :=
            (b.read_pos + min (availableSamples cap b.write_pos b.read_pos) 80000) % cap }
          hact]
        exact availableSamples_after_read cap _ _ _ hw hr hle

theorem polling_protocol_witness :
    (⟨List.replicate 160000 0, 40000, 0, true, 1⟩ : whisper_shared_buffer_t Int).write_pos
        < 160000
      ∧ (⟨List.replicate 160000 0, 40000, 0, true, 1⟩ : whisper_shared_buffer_t Int).read_pos
        < 160000
      ∧ 32000 ≤ whisper_shared_available_buffer 160000
          (some (⟨List.replicate 160000 0, 40000, 0, true, 1⟩ : whisper_shared_buffer_t Int))
      ∧ (processingIteration 160000
          (some (⟨List.replicate 160000 0, 40000, 0, true, 1⟩ : whisper_shared_buffer_t Int))
          (List.replicate 480000 0)).1
        = some (0, min (whisper_shared_available_buffer 160000
            (some (⟨List.replicate 160000 0, 40000, 0, true, 1⟩
              : whisper_shared_buffer_t Int))) 80000) :=
  ⟨by decide, by decide, by decide,
    ((polling_protocol 160000
      (⟨List.replicate 160000 0, 40000, 0, true, 1⟩ : whisper_shared_buffer_t Int)
      (List.replicate 480000 0) (by decide) (by decide)).2 (by decide)).1⟩

/-- C28: in every state the globals reach from their initial values by a
sequence of init, cleanup, write, read and available calls in which no cleanup
comes when every successful init has already been matched by a cleanup, the
init count is not negative, it is positive exactly when the storage is
allocated, and exactly when the active flag is true. -/
theorem lifecycle_invariant [Zero α] (cap : Nat) (calls : List (Call α))
    (hcov : cleanupsCovered cap 0 (Globals.initial : Globals α) calls = true) :
    0 ≤ (run cap (Globals.initial : Globals α) calls).g_init_count
      ∧ (0 < (run cap (Globals.initial : Globals α) calls).g_init_count
          ↔ (run cap (Globals.initial : Globals α) calls).g_audio_samples.isSome = true)
      ∧ (0 < (run cap (Globals.initial : Globals α) calls).g_init_count
          ↔ (run cap (Globals.initial : Globals α) calls).g_active = true) := by
  obtain ⟨m, hcount, hsome, hact⟩ :=
    lifecycle_run cap calls Globals.initial 0 lifecycle_initial hcov
  rw [hcount]
  refine ⟨by omega, ?_, ?_⟩
  · rw [← hsome]; omega
  · rw [← hact]; omega

theorem lifecycle_invariant_witness :
    cleanupsCovered 3 0 (Globals.initial : Globals Int)
        [Call.init false, Call.init true, Call.write [1, 2], Call.init true, Call.cleanup,
          Call.read [0] 1, Call.cleanup, Call.init true] = true
      ∧ 0 ≤ (run 3 (Globals.initial : Globals Int)
          [Call.init false, Call.init true, Call.write [1, 2], Call.init true, Call.cleanup,
            Call.read [0] 1, Call.cleanup, Call.init true]).g_init_count :=
  ⟨by decide,
    (lifecycle_invariant 3
      [Call.init false, Call.init true, Call.write [1, (2 : Int)], Call.init true,
        Call.cleanup, Call.read [0] 1, Call.cleanup, Call.init true] (by decide)).1⟩

/-- C29, as stated, fails when cleanup has been called once more than init:
after init, cleanup, cleanup (every allocation succeeding), the next init
returns 0 without allocating, the storage pointer is `NULL`, and the write that
follows returns -1. -/
theorem init_succeeds_without_storage :
    (whisper_shared_init 3 true
        (run 3 (Globals.initial : Globals Int)
          [Call.init true, Call.cleanup, Call.cleanup])).1 = 0
      ∧ (whisper_shared_init 3 true
          (run 3 (Globals.initial : Globals Int)
            [Call.init true, Call.cleanup, Call.cleanup])).2.g_audio_samples = none
      ∧ (whisper_shared_write 3
          (whisper_shared_init 3 true
            (run 3 (Globals.initial : Globals Int)
              [Call.init true, Call.cleanup, Call.cleanup])).2 [7, 8]).1 = -1 := by
  decide

/-- C29 (amended): for every sequence of calls from the initial globals in
which no cleanup comes when every successful init has already been matched by a
cleanup, whenever the next `whisper_shared_init` returns 0 the storage is
allocated and a write that follows immediately returns 0. -/
theorem successful_init_is_usable [Zero α] (cap : Nat) (calls : List (Call α)) (ok : Bool)
    (xs : List α)
    (hcov : cleanupsCovered cap 0 (Globals.initial : Globals α) calls = true)
    (hret : (whisper_shared_init cap ok (run cap (Globals.initial : Globals α) calls)).1 = 0) :
    (whisper_shared_init cap ok
        (run cap (Globals.initial : Globals α) calls)).2.g_audio_samples.isSome = true
      ∧ (whisper_shared_write cap
          (whisper_shared_init cap ok (run cap (Globals.initial : Globals α) calls)).2
          xs).1 = 0 := by
  obtain ⟨m, hm⟩ := lifecycle_run cap calls Globals.initial 0 lifecycle_initial hcov
  have hinit := lifecycle_init cap ok _ m hm
  rw [if_pos hret] at hinit
  obtain ⟨-, hsome, hact⟩ := hinit
  have h1 := hsome.mp (by omega)
  have h2 := hact.mp (by omega)
  obtain ⟨buf, hbuf⟩ := Option.isSome_iff_exists.mp h1
  exact ⟨h1, by rw [write_active cap _ buf xs h2 hbuf]⟩

theorem successful_init_is_usable_witness :
    cleanupsCovered 3 0 (Globals.initial : Globals Int)
        [Call.init true, Call.cleanup, Call.init false] = true
      ∧ (whisper_shared_init 3 true
          (run 3 (Globals.initial : Globals Int)
            [Call.init true, Call.cleanup, Call.init false])).1 = 0
      ∧ (whisper_shared_write 3
          (whisper_shared_init 3 true
            (run 3 (Globals.initial : Globals Int)
              [Call.init true, Call.cleanup, Call.init false])).2 [7, 8]).1 = 0 :=
  ⟨by decide, by decide,
    (successful_init_is_usable 3 [Call.init true, Call.cleanup, Call.init false] true
      [7, (8 : Int)] (by decide) (by decide)).2⟩

/-- C30 fails in the code: the escaped text that `translate_cli` writes has
the length of the text plus three bytes for every single quote, so for the
text of one single quote it is the 4 bytes quote, backslash, quote, quote,
which with the terminating NUL do not fit in the 3 bytes allocated. -/
theorem escaped_text_overflows_buffer :
    (∀ text : List Nat,
        (escapedText text).length = text.length + 3 * text.count SINGLE_QUOTE)
      ∧ escapedText [SINGLE_QUOTE] = [SINGLE_QUOTE, BACKSLASH, SINGLE_QUOTE, SINGLE_QUOTE]
      ∧ escapedCapacity [SINGLE_QUOTE] = 3
      ∧ ¬ ((escapedText [SINGLE_QUOTE]).length ≤ 2 * [SINGLE_QUOTE].length)
      ∧ ¬ ((escapedText [SINGLE_QUOTE]).length + 1 ≤ escapedCapacity [SINGLE_QUOTE]) := by
  refine ⟨fun text => ?_, by decide, by decide, by decide, by decide⟩
  rw [escapedText, escapeLoop_length]
  simp

end claims

end WhisperShared
